import Mathlib

/-!
Verification of the crawl state machine and extraction pipeline of
`bin/python-scrawler/mongodb_url_scraper.py` (class `MongoDBURLScraper`)
and the aggregate monitor `mongodb_monitor.py`.

The Python code is shallowly embedded: Python/JSON values become the
inductive type `Json`, the MongoDB `urls` collection becomes a list of
`UrlDoc`, raised-and-uncaught Python exceptions become `Except.error`,
wall-clock timestamps become explicit `Nat` arguments, and the external
effects (MongoDB availability, Playwright navigation results, the page's
anchor elements and captured network responses) become explicit
parameters.  All definitions are executable and structurally recursive so
that every theorem can be checked on concrete inputs by `rfl`/`decide`.

Modelling notes on Python semantics used below:
  * `Json.obj` carries `Json` keys because the scraper builds Python dicts
    whose keys come from payload data (`veld.get('key', '')`) and hence can
    be any hashable value; JSON payloads parsed by `json.loads` only ever
    use string keys.
  * `keyEq` is structural equality on scalar values.  Python's numeric
    cross-type equality (`True == 1`) is not modelled; no claim depends on
    a payload mixing booleans and numbers as dict keys.
  * Python floats are not modelled; JSON numbers are embedded as `Int`.
    Every operation the scraper performs on a numeric payload value
    (truthiness, storing it, raising `TypeError` on `in`/`.get`/indexing)
    is independent of integer-versus-float representation.
-/

namespace Scrawler

/-- Embedding of Python/JSON values manipulated by the scraper. -/
inductive Json where
  | null
  | bool (b : Bool)
  | num (n : Int)
  | str (s : String)
  | arr (elems : List Json)
  | obj (entries : List (Json × Json))

/-- Python truthiness (`bool(x)`) for embedded values. -/
def truthy : Json → Bool
  | .null => false
  | .bool b => b
  | .num n => n != 0
  | .str s => !s.isEmpty
  | .arr xs => !xs.isEmpty
  | .obj kvs => !kvs.isEmpty

/-- Equality used for dict-key lookup; structural on scalars, `false` on
containers (Python would have rejected unhashable keys earlier). -/
def keyEq : Json → Json → Bool
  | .null, .null => true
  | .bool a, .bool b => a == b
  | .num a, .num b => a == b
  | .str a, .str b => a == b
  | _, _ => false

/-- Python hashability of a value used as a dict key. -/
def hashable : Json → Bool
  | .arr _ => false
  | .obj _ => false
  | _ => true

def Json.isObj : Json → Bool
  | .obj _ => true
  | _ => false

def Json.isArr : Json → Bool
  | .arr _ => true
  | _ => false

def Json.isStr : Json → Bool
  | .str _ => true
  | _ => false

/-- First-match lookup in an embedded dict. -/
def lookupJ : List (Json × Json) → Json → Option Json
  | [], _ => none
  | (k', v) :: rest, k => if keyEq k' k then some v else lookupJ rest k

/-- Python dict assignment: replace in place, else append. -/
def setJ : List (Json × Json) → Json → Json → List (Json × Json)
  | [], k, v => [(k, v)]
  | (k', v') :: rest, k, v =>
      if keyEq k' k then (k', v) :: rest else (k', v') :: setJ rest k v

/-- Errors of the embedded Python fragments. -/
abbrev Exc := Except String

/-- `x.get(k, d)`: `AttributeError` when `x` is not a dict. -/
def jget (j : Json) (k : String) (d : Json) : Exc Json :=
  match j with
  | .obj kvs => .ok ((lookupJ kvs (.str k)).getD d)
  | _ => .error "AttributeError"

/-- `x.get(k)` (default `None`). -/
def jgetOpt (j : Json) (k : String) : Exc Json :=
  match j with
  | .obj kvs => .ok ((lookupJ kvs (.str k)).getD .null)
  | _ => .error "AttributeError"

/-- String containment on char lists (`needle in haystack` for `str`). -/
def startsWithL : List Char → List Char → Bool
  | _, [] => true
  | [], _ :: _ => false
  | c :: cs, d :: ds => c == d && startsWithL cs ds

def hasSubL (pat : List Char) : List Char → Bool
  | [] => startsWithL [] pat
  | c :: rest => startsWithL (c :: rest) pat || hasSubL pat rest

/-- Python `k in x` (membership); `TypeError` on non-container scalars. -/
def jhas (j : Json) (k : String) : Exc Bool :=
  match j with
  | .obj kvs => .ok (kvs.any (fun p => keyEq p.1 (.str k)))
  | .arr xs => .ok (xs.any (fun x => keyEq x (.str k)))
  | .str s => .ok (hasSubL k.toList s.toList)
  | _ => .error "TypeError"

/-- Python `x[k]` with a string key. -/
def jindexS (j : Json) (k : String) : Exc Json :=
  match j with
  | .obj kvs =>
      match lookupJ kvs (.str k) with
      | some v => .ok v
      | none => .error "KeyError"
  | _ => .error "TypeError"

/-- Python `x[0]`. -/
def jfirst : Json → Exc Json
  | .arr (x :: _) => .ok x
  | .arr [] => .error "IndexError"
  | .str s =>
      match s.toList with
      | c :: _ => .ok (.str (String.mk [c]))
      | [] => .error "IndexError"
  | .obj kvs =>
      match lookupJ kvs (.num 0) with
      | some v => .ok v
      | none => .error "KeyError"
  | _ => .error "TypeError"

/-- Python `for x in j`: dict iterates its keys, `str` its characters. -/
def jiter : Json → Exc (List Json)
  | .arr xs => .ok xs
  | .obj kvs => .ok (kvs.map (fun p => p.1))
  | .str s => .ok (s.toList.map (fun c => .str (String.mk [c])))
  | _ => .error "TypeError"

/-- Error-propagating map (a Python list comprehension over an `Exc` body). -/
def mapExc (f : Json → Exc Json) : List Json → Exc (List Json)
  | [] => .ok []
  | x :: xs => do
      let y ← f x
      let ys ← mapExc f xs
      .ok (y :: ys)

/-- Python `str` coercion required by `', '.join(...)`. -/
def asStr : Json → Exc String
  | .str s => .ok s
  | _ => .error "TypeError"

/-- `sep.join(list)` over embedded strings. -/
def joinWith (sep : String) : List String → String
  | [] => ""
  | [s] => s
  | s :: rest => s ++ sep ++ joinWith sep rest

def mapStrs : List Json → Exc (List String)
  | [] => .ok []
  | x :: xs => do
      let s ← asStr x
      let ss ← mapStrs xs
      .ok (s :: ss)

def joinStrs (sep : String) (xs : List Json) : Exc String := do
  .ok (joinWith sep (← mapStrs xs))

/-- `str(x)` as used by the f-string `f'{key}_values'` (scalar keys only). -/
def pyStr : Json → String
  | .str s => s
  | .num n => toString n
  | .bool true => "True"
  | .bool false => "False"
  | .null => "None"
  | .arr _ => ""
  | .obj _ => ""

/-!
### Dates: `format_date_for_display` (source lines 101-117)

`datetime.strptime(s, '%Y-%m-%d')` and `datetime.fromisoformat` are
modelled by executable parsers covering the grammar the scraper can
actually feed them (after its `split('.')`-truncation and
`replace('Z', '+00:00')` preprocessing the parsed string never contains
`'.'`, so no fractional-second form is reachable).  `fromisoformat` here
is the grammar every CPython version accepts — `YYYY-MM-DD`, any single
separator character, `HH`, `HH:MM` or `HH:MM:SS` (a bare hour is valid),
an optional `±HH:MM` or `±HH:MM:SS` offset totalling under 24 hours —
which is the documented inverse-of-`isoformat()` grammar of
CPython < 3.11; the broader forms only CPython ≥ 3.11 additionally
accepts (basic format without separators such as `T1430`, `±HH`/`±HHMM`
offsets, comma fractions) parse as failures here, so a pass-through
statement conditioned on this parser failing covers a string only when
every CPython version rejects it.
`strftime('%d-%m-%Y, %H:%M')` renders the year unpadded as glibc does.
-/

def digitChar (n : Nat) : Char := Char.ofNat (48 + n)

def isDigitCh (c : Char) : Bool := decide (48 ≤ c.toNat) && decide (c.toNat ≤ 57)

def digitVal (c : Char) : Nat := c.toNat - 48

def digitsToNat (cs : List Char) : Nat := cs.foldl (fun a c => a * 10 + digitVal c) 0

def containsCh : List Char → Char → Bool
  | [], _ => false
  | c :: rest, d => c == d || containsCh rest d

def takeBeforeDot (cs : List Char) : List Char := cs.takeWhile (fun c => c != '.')

/-- `date_string.replace('Z', '+00:00')` (the only `replace` call site). -/
def replaceZ : List Char → List Char
  | [] => []
  | c :: rest =>
      if c == 'Z' then '+' :: '0' :: '0' :: ':' :: '0' :: '0' :: replaceZ rest
      else c :: replaceZ rest

/-- Wall-clock instant as far as `strftime('%d-%m-%Y, %H:%M')` needs it. -/
structure DT where
  year : Nat
  month : Nat
  day : Nat
  hour : Nat
  minute : Nat

def isLeap (y : Nat) : Bool := (y % 4 == 0 && y % 100 != 0) || y % 400 == 0

def daysInMonth (y m : Nat) : Nat :=
  if m == 2 then (if isLeap y then 29 else 28)
  else if m == 4 || m == 6 || m == 9 || m == 11 then 30
  else 31

def pad2 (n : Nat) : String := String.mk [digitChar (n / 10 % 10), digitChar (n % 10)]

/-- `%Y` for years up to 9999, unpadded as on glibc. -/
def fmtYear (y : Nat) : String :=
  if y < 10 then String.mk [digitChar y]
  else if y < 100 then String.mk [digitChar (y / 10), digitChar (y % 10)]
  else if y < 1000 then String.mk [digitChar (y / 100), digitChar (y / 10 % 10), digitChar (y % 10)]
  else String.mk [digitChar (y / 1000 % 10), digitChar (y / 100 % 10), digitChar (y / 10 % 10), digitChar (y % 10)]

/-- `dt.strftime('%d-%m-%Y, %H:%M')`. -/
def fmtDT (dt : DT) : String :=
  pad2 dt.day ++ "-" ++ pad2 dt.month ++ "-" ++ fmtYear dt.year ++ ", " ++
    pad2 dt.hour ++ ":" ++ pad2 dt.minute

/-- `s.split(sep)` for a one-character separator. -/
def splitOnCh (sep : Char) : List Char → List (List Char)
  | [] => [[]]
  | c :: rest =>
      if c == sep then [] :: splitOnCh sep rest
      else
        match splitOnCh sep rest with
        | g :: gs => (c :: g) :: gs
        | [] => [[c]]

def splitDash : List Char → List (List Char) := splitOnCh '-'

/-- One numeric field read by `strptime` (at most `maxLen` digits). -/
def ymdComp (cs : List Char) (maxLen : Nat) : Option Nat :=
  if cs.isEmpty then none
  else if cs.all isDigitCh && decide (cs.length ≤ maxLen) then some (digitsToNat cs)
  else none

/-- `datetime.strptime(s, '%Y-%m-%d')`; midnight on success. -/
def parseYMD (s : String) : Option DT :=
  match splitDash s.toList with
  | [ys, ms, ds] =>
      match ymdComp ys 4, ymdComp ms 2, ymdComp ds 2 with
      | some y, some m, some d =>
          if 1 ≤ y ∧ 1 ≤ m ∧ m ≤ 12 ∧ 1 ≤ d ∧ d ≤ daysInMonth y m then
            some ⟨y, m, d, 0, 0⟩
          else none
      | _, _, _ => none
  | _ => none

def parse2 (c d : Char) : Option Nat :=
  if isDigitCh c && isDigitCh d then some (10 * digitVal c + digitVal d) else none

/-- Trailing UTC offset `±HH:MM` or `±HH:MM:SS`: two-digit components with
no per-component bound (`timedelta` normalises), the whole offset under 24
hours (`timezone`'s bound); only validity matters, the wall-clock fields
are kept. -/
def checkTz (dt : DT) : List Char → Option DT
  | [] => some dt
  | [sign, h1, h2, ':', n1, n2] =>
      if sign == '+' || sign == '-' then
        match parse2 h1 h2, parse2 n1 n2 with
        | some h, some n => if h * 3600 + n * 60 < 86400 then some dt else none
        | _, _ => none
      else none
  | [sign, h1, h2, ':', n1, n2, ':', s1, s2] =>
      if sign == '+' || sign == '-' then
        match parse2 h1 h2, parse2 n1 n2, parse2 s1 s2 with
        | some h, some n, some s =>
            if h * 3600 + n * 60 + s < 86400 then some dt else none
        | _, _, _ => none
      else none
  | _ => none

/-- The time-of-day grammar `HH[:MM[:SS]]` (a bare hour is a valid time;
minute and second default to 0), each component two digits and in range
(`time`'s constructor bounds), followed by an optional offset. -/
def parseTime (y m d : Nat) : List Char → Option DT
  | h1 :: h2 :: rest =>
      match parse2 h1 h2 with
      | some h =>
          if h ≤ 23 then
            match rest with
            | ':' :: n1 :: n2 :: rest2 =>
                match parse2 n1 n2 with
                | some n =>
                    if n ≤ 59 then
                      match rest2 with
                      | ':' :: s1 :: s2 :: rest3 =>
                          match parse2 s1 s2 with
                          | some sec =>
                              if sec ≤ 59 then checkTz ⟨y, m, d, h, n⟩ rest3
                              else none
                          | none => none
                      | _ => checkTz ⟨y, m, d, h, n⟩ rest2
                    else none
                | none => none
            | _ => checkTz ⟨y, m, d, h, 0⟩ rest
          else none
      | none => none
  | _ => none

/-- `datetime.fromisoformat` on the (dot-free) strings the scraper can
produce, in the grammar common to all CPython versions (see the section
comment): a `YYYY-MM-DD` date, then optionally any one separator
character and a time parsed by `parseTime`. -/
def fromisoformat (cs : List Char) : Option DT :=
  match cs with
  | y1 :: y2 :: y3 :: y4 :: '-' :: m1 :: m2 :: '-' :: d1 :: d2 :: rest =>
      if [y1, y2, y3, y4, m1, m2, d1, d2].all isDigitCh then
        let y := digitsToNat [y1, y2, y3, y4]
        let m := digitsToNat [m1, m2]
        let d := digitsToNat [d1, d2]
        if 1 ≤ y ∧ 1 ≤ m ∧ m ≤ 12 ∧ 1 ≤ d ∧ d ≤ daysInMonth y m then
          match rest with
          | [] => some ⟨y, m, d, 0, 0⟩
          | _sep :: timecs => parseTime y m d timecs
        else none
      else none
  | _ => none

/-- The string branch of `format_date_for_display`: note that when the input
contains both `'T'` and `'.'` the local variable is rebound to the truncated
string plus `'Z'` before parsing, and the bare `except` returns that rebound
value, not the caller's input. -/
def formatDateCore (ds : String) : String :=
  if containsCh ds.toList 'T' then
    let ds' := if containsCh ds.toList '.' then String.mk (takeBeforeDot ds.toList) ++ "Z" else ds
    match fromisoformat (replaceZ ds'.toList) with
    | some dt => fmtDT dt
    | none => ds'
  else
    match parseYMD ds with
    | some dt => fmtDT dt
    | none => ds

/-- `format_date_for_display(date_string)` on any Python value: falsy values
give `''`; non-string truthy values throw inside the `try` and are returned
unchanged by the bare `except`. -/
def format_date_for_display (j : Json) : Json :=
  if !truthy j then .str ""
  else
    match j with
    | .str ds => .str (formatDateCore ds)
    | _ => j

/-!
### Capture: `scrape_url_details` (source lines 242-294)

The Playwright navigation outcome and the response bodies accumulated by
the `on_response` listener are explicit inputs; `json.loads` is an
explicit parameter `parse` (`none` models `json.JSONDecodeError`).
-/

/-- The flat metadata mapping (a Python dict built by the extractor). -/
abbrev MD := List (Json × Json)

/-- One element of `captured_json`: `{url, status, json_text}`. -/
structure RawCapture where
  url : String
  status : Int
  json_text : String

/-- One element of `result["captured"]`: either `data` (decode succeeded)
or `raw_text` (decode failed) beside `response_url`/`status`. -/
structure CapEntry where
  response_url : String
  status : Int
  data : Option Json
  raw_text : Option String

/-- The dict returned by `scrape_url_details`. -/
structure Bundle where
  detail_url : String
  timestamp : Option String
  error : Option String
  captured : List CapEntry

/-- Loop body of lines 276-289: one captured body, decoded or kept raw. -/
def convertItem (parse : String → Option Json) (it : RawCapture) : CapEntry :=
  match parse it.json_text with
  | some j => ⟨it.url, it.status, some j, none⟩
  | none => ⟨it.url, it.status, none, some it.json_text⟩

def processCaptured (parse : String → Option Json) : List RawCapture → List CapEntry
  | [] => []
  | it :: rest => convertItem parse it :: processCaptured parse rest

/-- Result of `await page.goto(...)`. -/
inductive NavResult where
  | success
  | failure (msg : String)

def scrape_url_details (parse : String → Option Json) (nav : NavResult)
    (captured_json : List RawCapture) (detail_url ts : String) : Bundle :=
  match nav with
  | .failure msg => ⟨detail_url, none, some msg, []⟩
  | .success => ⟨detail_url, some ts, none, processCaptured parse captured_json⟩

/-!
### Frontier: the MongoDB `urls` collection (source lines 42-99)

The collection is a list of documents in insertion order; `now` stands for
`datetime.now(timezone.utc)`.  The `fail` flag of the fallible operations
says whether the underlying pymongo call raises; both `get_unprocessed_urls`
and `update_url_with_scraped_data` wrap their body in `try/except` that
logs and falls through, which is why their embeddings never return
`Except.error`.
-/

structure UrlDoc where
  url : String
  processed : Bool
  created_at : Nat
  processed_at : Option Nat
  raw_scraped_data : Option Bundle
  formatted_metadata : Option MD

abbrev Frontier := List UrlDoc

def knownUrl (s : Frontier) (u : String) : Bool := s.any (fun e => e.url == u)

def newDoc (u : String) (now : Nat) : UrlDoc := ⟨u, false, now, none, none, none⟩

/-- `store_urls_in_mongodb`: one ordered bulk of
`UpdateOne({'url': url}, {'$setOnInsert': ...}, upsert=True)` per URL;
returns `upserted_count` and the new collection state. -/
def store_urls_in_mongodb : List String → Nat → Frontier → Nat × Frontier
  | [], _, s => (0, s)
  | u :: rest, now, s =>
      if knownUrl s u then store_urls_in_mongodb rest now s
      else
        let r := store_urls_in_mongodb rest now (s ++ [newDoc u now])
        (r.1 + 1, r.2)

/-- `get_unprocessed_urls`: `find({'processed': False})`, then
`cursor.limit(limit)` only when `limit` is truthy; any exception is caught
and yields `[]`. -/
def get_unprocessed_urls (fail : Bool) (limit : Option Nat) (s : Frontier) : List UrlDoc :=
  if fail then []
  else
    let base := s.filter (fun e => !e.processed)
    match limit with
    | none => base
    | some l => if l != 0 then base.take l else base

/-- `update_one({'url': url}, {'$set': ...})` touches the first match only. -/
def updateFirst (url : String) (f : UrlDoc → UrlDoc) : Frontier → Frontier
  | [] => []
  | e :: rest => if e.url == url then f e :: rest else e :: updateFirst url f rest

def markProcessed (raw : Bundle) (fm : MD) (now : Nat) (e : UrlDoc) : UrlDoc :=
  { e with processed := true, processed_at := some now,
           raw_scraped_data := some raw, formatted_metadata := some fm }

/-- `update_url_with_scraped_data`: the `update_one` call in a `try/except`
that only prints.  The `Except` result is what the caller observes: it is
`.ok` both when the update raises (`fail = true`, collection unchanged) and
when the URL matches nothing (collection unchanged, no upsert). -/
def update_url_with_scraped_data (fail : Bool) (url : String) (raw : Bundle)
    (fm : MD) (now : Nat) (s : Frontier) : Except String Frontier :=
  if fail then .ok s
  else .ok (updateFirst url (markProcessed raw fm now) s)

/-!
### Paginator: `collect_search_links` (source lines 296-317) and the
pagination loop of `collect_urls_from_search` (lines 331-348)

`goto`/`wait_for_selector` outcomes and the `a[href*='/details/']`
elements' `href` attributes are explicit inputs.  `except PWTimeout`
covers both awaited calls, so a navigation timeout also returns `[]`.
-/

inductive GotoResult where
  | ok
  | timeout
  | failure (msg : String)

inductive WaitResult where
  | found
  | timeout

/-- `urljoin(BASE_URL, href)` for `BASE_URL = 'https://open.overheid.nl'`. -/
def urljoinB (href : String) : String :=
  if href.startsWith "http://" || href.startsWith "https://" then href
  else if href.startsWith "//" then "https:" ++ href
  else if href.startsWith "/" then "https://open.overheid.nl" ++ href
  else if href.isEmpty then "https://open.overheid.nl"
  else "https://open.overheid.nl/" ++ href

/-- Python `set` insertion order collapsed to first occurrence. -/
def dedupAcc (seen : List String) : List String → List String
  | [] => []
  | x :: rest =>
      if seen.contains x then dedupAcc seen rest
      else x :: dedupAcc (x :: seen) rest

def dedup (xs : List String) : List String := dedupAcc [] xs

/-- Lines 308-317: read each anchor's `href`, join against the base URL and
keep those containing `/details/`. -/
def processAnchors (hrefs : List (Option String)) : List String :=
  dedup (hrefs.filterMap (fun h? =>
    match h? with
    | none => none
    | some h =>
        if h.isEmpty then none
        else
          let fu := urljoinB h
          if hasSubL "/details/".toList fu.toList then some fu else none))

def collect_search_links (goto : GotoResult) (wait : WaitResult)
    (hrefs : List (Option String)) : Except String (List String) :=
  match goto with
  | .timeout => .ok []
  | .failure msg => .error msg
  | .ok =>
      match wait with
      | .timeout => .ok []
      | .found => .ok (processAnchors hrefs)

/-- One browser interaction per page index, as the discover loop sees it. -/
def PageOracle := Nat → GotoResult × WaitResult × List (Option String)

/-- The `while True` pagination loop without `max_pages`: the pages it
navigates to, starting at `pageNum`, with `fuel` bounding the unrolling.
The loop stops after a page whose link collection is empty; an uncaught
navigation failure also ends the run (the coroutine aborts). -/
def discoverVisits (oracle : PageOracle) : Nat → Nat → List Nat
  | 0, _ => []
  | fuel + 1, pageNum =>
      match collect_search_links (oracle pageNum).1 (oracle pageNum).2.1 (oracle pageNum).2.2 with
      | .error _ => [pageNum]
      | .ok [] => [pageNum]
      | .ok (_ :: _) => pageNum :: discoverVisits oracle fuel (pageNum + 1)

/-!
### Extractor: `extract_formatted_metadata` (source lines 119-240)

A line-by-line embedding.  `metadata` is threaded as an association list
`MD`; each Python statement `metadata[k] = v` is a `setJ`/`psS`, the
read-modify-write `metadata['extra_metadata_fields'][key] = ...` reads the
current slot value back out of `metadata` (observationally identical to
Python's aliasing of the inner dict).  Any Python operation that can raise
on an ill-typed payload is in `Exc`.
-/

def psS (md : MD) (k : String) (v : Json) : MD := setJ md (.str k) v

/-- `d[k] = v` on an embedded Python dict value. -/
def pySetItem (j : Json) (k v : Json) : Exc Json :=
  match j with
  | .obj kvs => if hashable k then .ok (.obj (setJ kvs k v)) else .error "TypeError"
  | _ => .error "TypeError"

/-- `metadata[k] = v` with a payload-supplied key. -/
def mdSetDyn (md : MD) (k v : Json) : Exc MD :=
  if hashable k then .ok (setJ md k v) else .error "TypeError"

/-- `[x.get('label', '') for x in j]`. -/
def labelsOf (j : Json) : Exc (List Json) := do
  let xs ← jiter j
  mapExc (fun t => jget t "label" (.str "")) xs

/-- `values[0] if values else ''`. -/
def firstOrEmpty (values : Json) : Exc Json :=
  if truthy values then jfirst values else .ok (.str "")

/-- `', '.join(values) if values else ''`. -/
def joinedOrEmpty (values : Json) : Exc Json :=
  if truthy values then do
    let xs ← jiter values
    let s ← joinStrs ", " xs
    .ok (.str s)
  else .ok (.str "")

/-- `mime_type.split('/')[-1].upper()` (ASCII upper-case). -/
def upperCh (c : Char) : Char :=
  if decide (97 ≤ c.toNat) && decide (c.toNat ≤ 122) then Char.ofNat (c.toNat - 32) else c

def mimeUpper (s : String) : String :=
  match (splitOnCh '/' s.toList).reverse with
  | last :: _ => String.mk (last.map upperCh)
  | [] => ""

/-- Lines 126-129: the first capture carrying a `data` key. -/
def firstData : List CapEntry → Option Json
  | [] => none
  | e :: rest =>
      match e.data with
      | some j => some j
      | none => firstData rest

/-- Lines 138-143: basic document information. -/
def basicSection (b : Bundle) (doc : Json) : Exc MD := do
  let md := psS [] "detail_url" (.str b.detail_url)
  let md := psS md "timestamp" (.str (b.timestamp.getD ""))
  let md := psS md "pid" (← jget doc "pid" (.str ""))
  let md := psS md "weblocatie" (← jget doc "weblocatie" (.str ""))
  let md := psS md "identifiers" (← jget doc "identifiers" (.arr []))
  let idsOpt ← jgetOpt doc "identifiers"
  let ik ← if truthy idsOpt then jfirst idsOpt else .ok (.str "")
  .ok (psS md "identificatiekenmerk" ik)

/-- Lines 146-149: dates. -/
def datesSection (md0 : MD) (doc : Json) : Exc MD := do
  let md := psS md0 "creatiedatum" (← jget doc "creatiedatum" (.str ""))
  let geldig ← jget doc "geldigheid" (.obj [])
  let gb ← jget geldig "begindatum" (.str "")
  let md := psS md "geldigheid_begindatum" gb
  .ok (psS md "geldig_van" (format_date_for_display gb))

/-- Lines 152-168: organizations, language and title. -/
def orgsSection (md0 : MD) (doc : Json) : Exc MD := do
  let ver ← jget doc "verantwoordelijke" (.obj [])
  let md := psS md0 "verantwoordelijke_label" (← jget ver "label" (.str ""))
  let md := psS md "verantwoordelijke_bronwaarde" (← jget ver "bronwaarde" (.str ""))
  let ops ← jget doc "opsteller" (.obj [])
  let md := psS md "opsteller_label" (← jget ops "label" (.str ""))
  let md := psS md "opsteller_bronwaarde" (← jget ops "bronwaarde" (.str ""))
  let pub ← jget doc "publisher" (.obj [])
  let md := psS md "publicerende_organisatie" (← jget pub "label" (.str ""))
  let lang ← jget doc "language" (.obj [])
  let md := psS md "taal" (← jget lang "label" (.str ""))
  let tc ← jget doc "titelcollectie" (.obj [])
  .ok (psS md "officiele_titel" (← jget tc "officieleTitel" (.str "")))

/-- Lines 171-182: classifications.  Note `themas` receives only the
comma-joined string while `informatiecategorieen` is stored both joined
and as a list. -/
def classSection (md0 : MD) (doc : Json) : Exc MD := do
  let cls ← jget doc "classificatiecollectie" (.obj [])
  let dsoorten ← jget cls "documentsoorten" (.arr [])
  let md ←
    if truthy dsoorten then do
      let d0 ← jfirst dsoorten
      .ok (psS md0 "documentsoort" (← jget d0 "label" (.str "")))
    else .ok md0
  let themas ← jget cls "themas" (.arr [])
  let tl ← labelsOf themas
  let tjoined ← joinStrs ", " tl
  let md := psS md "themas" (.str tjoined)
  let cats ← jget cls "informatiecategorieen" (.arr [])
  let cl ← labelsOf cats
  let cjoined ← joinStrs ", " cl
  let md := psS md "woo_informatiecategorie" (.str cjoined)
  .ok (psS md "informatiecategorieen" (.arr cl))

/-- Lines 191-208: one `veld` of a `plooi.displayfield` extra. -/
def veldenLoop : MD → List Json → Exc MD
  | md, [] => .ok md
  | md, veld :: rest => do
      let key ← jget veld "key" (.str "")
      let values ← jget veld "values" (.arr [])
      let fv ← firstOrEmpty values
      let avs ← joinedOrEmpty values
      let entry := Json.obj
        [(.str "values", values), (.str "first_value", fv), (.str "all_values_string", avs)]
      let emf := (lookupJ md (.str "extra_metadata_fields")).getD .null
      let emf' ← pySetItem emf key entry
      let md := setJ md (.str "extra_metadata_fields") emf'
      let md ←
        if keyEq key (.str "vergaderjaar") then
          .ok (psS (psS md "vergaderjaar" fv) "vergaderjaar_values" values)
        else if keyEq key (.str "documentsubsoort") then
          .ok (psS (psS md "documentsubsoort" fv) "documentsubsoort_values" values)
        else do
          let md' ← mdSetDyn md key fv
          .ok (setJ md' (.str (pyStr key ++ "_values")) values)
      veldenLoop md rest

/-- Lines 188-190: iterate `extraMetadata`, handling `plooi.displayfield`
entries. -/
def extrasLoop : MD → List Json → Exc MD
  | md, [] => .ok md
  | md, extra :: rest => do
      let pv ← jgetOpt extra "prefix"
      if keyEq pv (.str "plooi.displayfield") then do
        let velden ← jget extra "velden" (.arr [])
        let vs ← jiter velden
        let md' ← veldenLoop md vs
        extrasLoop md' rest
      else extrasLoop md rest

/-- Lines 185-208: extra metadata with value sets. -/
def extrasSection (md0 : MD) (doc : Json) : Exc MD := do
  let extras ← jget doc "extraMetadata" (.arr [])
  let md := psS md0 "extra_metadata_fields" (.obj [])
  let xs ← jiter extras
  extrasLoop md xs

/-- Lines 216-220: the `bestandstype` value derived from `mime-type`. -/
def bestandMime (mt : Json) : Exc Json :=
  if keyEq mt (.str "application/pdf") then .ok (.str "PDF")
  else if truthy mt then do
    .ok (.str (mimeUpper (← asStr mt)))
  else .ok (.str "")

/-- Lines 216-226: the six fields written for the first `bestand`. -/
def bestandFields (md0 : MD) (b0 bt : Json) : Exc MD := do
  let md := psS md0 "bestandstype" bt
  let md := psS md "bestandsnaam" (← jget b0 "bestandsnaam" (.str ""))
  let md := psS md "bestandsgrootte" (← jget b0 "grootte" (.num 0))
  let md := psS md "paginas" (← jget b0 "paginas" (.num 0))
  let md := psS md "download_url" (← jget b0 "url" (.str ""))
  .ok (psS md "hash" (← jget b0 "hash" (.str "")))

/-- Lines 214-226: `if bestanden:` block. -/
def bestandSection (md0 : MD) (bestanden : Json) : Exc MD :=
  if truthy bestanden then do
    let b0 ← jfirst bestanden
    let mt ← jget b0 "mime-type" (.str "")
    let bt ← bestandMime mt
    bestandFields md0 b0 bt
  else .ok md0

/-- Lines 228-231: publication dates of the first `versie`. -/
def fileTail (md : MD) (v0 : Json) : Exc MD := do
  let od ← jget v0 "openbaarmakingsdatum" (.str "")
  let md := psS md "gepubliceerd_op" (format_date_for_display od)
  let mdt ← jget v0 "mutatiedatumtijd" (.str "")
  let md := psS md "laatst_gewijzigd" (format_date_for_display mdt)
  let md := psS md "openbaarmakingsdatum" od
  .ok (psS md "mutatiedatumtijd" mdt)

/-- Lines 211-231: file information from `versies`. -/
def fileSection (md0 : MD) (p : Json) : Exc MD := do
  let versies ← jget p "versies" (.arr [])
  if truthy versies then do
    let v0 ← jfirst versies
    let bestanden ← jget v0 "bestanden" (.arr [])
    let md ← bestandSection md0 bestanden
    fileTail md v0
  else .ok md0

/-- Lines 234-238: internal PLOOI information. -/
def plooiSection (md0 : MD) (p doc : Json) : Exc MD := do
  let pli ← jget p "plooiIntern" (.obj [])
  let md := psS md0 "aanbieder" (← jget pli "aanbieder" (.str ""))
  let md := psS md "source_label" (← jget pli "sourceLabel" (.str ""))
  let md := psS md "publicatiestatus" (← jget pli "publicatiestatus" (.str ""))
  .ok (psS md "raw_extra_metadata" (← jget doc "extraMetadata" (.arr [])))

def extractDoc (b : Bundle) (p doc : Json) : Exc MD := do
  let md ← basicSection b doc
  let md ← datesSection md doc
  let md ← orgsSection md doc
  let md ← classSection md doc
  let md ← extrasSection md doc
  let md ← fileSection md p
  plooiSection md p doc

/-- Lines 131-240 applied to the selected payload: the
`not api_response or 'document' not in api_response` guard, the
`api_response['document']` access and the flattening chain. -/
def extractPayload (b : Bundle) (p : Json) : Exc MD :=
  if !truthy p then .ok []
  else
    match jhas p "document" with
    | .error e => .error e
    | .ok false => .ok []
    | .ok true =>
        match jindexS p "document" with
        | .error e => .error e
        | .ok doc => extractDoc b p doc

/-- `extract_formatted_metadata(scraped_data)`.  `.error` models an
uncaught Python exception escaping the method. -/
def extract_formatted_metadata (b : Bundle) : Exc MD :=
  if b.captured.isEmpty then .ok []
  else
    match firstData b.captured with
    | none => .ok []
    | some p => extractPayload b p

/-!
### Schema conformance

`payloadOK` is the nested-schema shape described by the specification's
§4.4: every expected field is optional, but when present it must carry the
expected type (objects for object fields, arrays for list fields,
string labels, string-keyed extra-metadata fields whose key is not the
reserved output key `extra_metadata_fields`).  It is a sufficient,
decidable condition under which the extractor runs to completion.
-/

def optIs (kvs : List (Json × Json)) (k : String) (pred : Json → Bool) : Bool :=
  match lookupJ kvs (.str k) with
  | none => true
  | some v => pred v

def isArrOf (pred : Json → Bool) : Json → Bool
  | .arr xs => xs.all pred
  | _ => false

/-- An object whose `label`, when present, is a string. -/
def isLabelObj (j : Json) : Bool :=
  match j with
  | .obj kvs => optIs kvs "label" Json.isStr
  | _ => false

def veldOK (v : Json) : Bool :=
  match v with
  | .obj kvs =>
      (match lookupJ kvs (.str "key") with
       | none => true
       | some (.str k) => k != "extra_metadata_fields"
       | some _ => false)
      && optIs kvs "values" (isArrOf Json.isStr)
  | _ => false

def extraOK (e : Json) : Bool :=
  match e with
  | .obj kvs =>
      if keyEq ((lookupJ kvs (.str "prefix")).getD .null) (.str "plooi.displayfield")
      then optIs kvs "velden" (isArrOf veldOK)
      else true
  | _ => false

/-- `documentsoorten`: an array whose first element, if any, is an object. -/
def docsoortPred : Json → Bool
  | .arr [] => true
  | .arr (x :: _) => x.isObj
  | _ => false

def classOK (c : Json) : Bool :=
  match c with
  | .obj kvs =>
      optIs kvs "documentsoorten" docsoortPred
      && optIs kvs "themas" (isArrOf isLabelObj)
      && optIs kvs "informatiecategorieen" (isArrOf isLabelObj)
  | _ => false

/-- First element of `bestanden`: an object whose `mime-type`, if present,
is a string. -/
def bestandOK : Json → Bool
  | .obj bkvs => optIs bkvs "mime-type" Json.isStr
  | _ => false

def bestandenPred : Json → Bool
  | .arr [] => true
  | .arr (b :: _) => bestandOK b
  | _ => false

def versieFirstOK (v : Json) : Bool :=
  match v with
  | .obj kvs => optIs kvs "bestanden" bestandenPred
  | _ => false

def versiesPred : Json → Bool
  | .arr [] => true
  | .arr (v0 :: _) => versieFirstOK v0
  | _ => false

def docOK (kvs : List (Json × Json)) : Bool :=
  optIs kvs "identifiers" Json.isArr
  && optIs kvs "geldigheid" Json.isObj
  && optIs kvs "verantwoordelijke" Json.isObj
  && optIs kvs "opsteller" Json.isObj
  && optIs kvs "publisher" Json.isObj
  && optIs kvs "language" Json.isObj
  && optIs kvs "titelcollectie" Json.isObj
  && optIs kvs "classificatiecollectie" classOK
  && optIs kvs "extraMetadata" (isArrOf extraOK)

/-- The `document` value, when present, is a conforming object. -/
def documentPred (pkvs : List (Json × Json)) : Bool :=
  match lookupJ pkvs (.str "document") with
  | none => true
  | some (.obj dkvs) => docOK dkvs
  | some _ => false

def payloadOK (p : Json) : Bool :=
  if truthy p then
    match p with
    | .obj pkvs =>
        documentPred pkvs
        && optIs pkvs "versies" versiesPred
        && optIs pkvs "plooiIntern" Json.isObj
    | _ => false
  else true

/-- Schema conformance of the payload the extractor will select. -/
def BundleOK (b : Bundle) : Bool :=
  match firstData b.captured with
  | none => true
  | some p => payloadOK p

/-!
Specification-side value helpers used to state what the classification
flattening produces (compared against the embedded code in the theorems).
-/

/-- The `label` a label-object contributes (`''` when absent). -/
def labelString (c : Json) : String :=
  match c with
  | .obj kvs =>
      match lookupJ kvs (.str "label") with
      | some (.str s) => s
      | _ => ""
  | _ => ""

def labelStrings (cats : List Json) : List String := cats.map labelString

/-- Underlying strings of an all-string array. -/
def strsOf : List Json → List String
  | [] => []
  | .str s :: rest => s :: strsOf rest
  | _ :: rest => "" :: strsOf rest

/-- A `veld` whose computed key (`veld.get('key', '')`) is neither
classification output key; used to state when the extra-metadata loop
cannot overwrite those keys. -/
def veldKeySafe (v : Json) : Bool :=
  match v with
  | .obj kvs =>
      !keyEq ((lookupJ kvs (.str "key")).getD (.str "")) (.str "woo_informatiecategorie")
      && !keyEq ((lookupJ kvs (.str "key")).getD (.str "")) (.str "informatiecategorieen")
  | _ => true

/-- Everything the inner loop would iterate is key-safe. -/
def veldenSafe (v : Json) : Bool :=
  match jiter v with
  | .ok vs => vs.all veldKeySafe
  | .error _ => true

def extraSafe (e : Json) : Bool :=
  match e with
  | .obj kvs =>
      if keyEq ((lookupJ kvs (.str "prefix")).getD .null) (.str "plooi.displayfield")
      then veldenSafe ((lookupJ kvs (.str "velden")).getD (.arr []))
      else true
  | _ => true

/-- All extra-metadata entries of the document leave the two
classification output keys alone. -/
def docExtrasSafe (dkvs : List (Json × Json)) : Bool :=
  match jiter ((lookupJ dkvs (.str "extraMetadata")).getD (.arr [])) with
  | .ok es => es.all extraSafe
  | .error _ => true

/-!
### Concrete inputs used by the claim witnesses and counterexamples
-/

/-- The first element of an all-string value list (`''` when empty). -/
def firstStr : List String → Json
  | [] => .str ""
  | s :: _ => .str s

def emptyBundle : Bundle := ⟨"", none, none, []⟩

/-- A bundle whose selected payload is the syntactically valid JSON `7`. -/
def numBundle : Bundle :=
  ⟨"https://x/details/1", some "T0", none, [⟨"https://api", 200, some (.num 7), none⟩]⟩

/-- Label objects of the sample `informatiecategorieen` classification. -/
def sampleCats : List Json :=
  [.obj [(.str "label", .str "Woo")], .obj [(.str "label", .str "Wet")]]

/-- Entries of the sample classification collection. -/
def sampleClassEntries : List (Json × Json) := [
  (.str "documentsoorten", .arr [.obj [(.str "label", .str "Brief")]]),
  (.str "themas", .arr [.obj [(.str "label", .str "Natuur")]]),
  (.str "informatiecategorieen", .arr sampleCats)]

/-- Entries of a fully populated, schema-conforming document. -/
def sampleDocEntries : List (Json × Json) := [
  (.str "pid", .str "pid-1"),
  (.str "weblocatie", .str "https://w"),
  (.str "identifiers", .arr [.str "ID-A", .str "ID-B"]),
  (.str "creatiedatum", .str "2024-03-05"),
  (.str "geldigheid", .obj [(.str "begindatum", .str "2024-03-05")]),
  (.str "verantwoordelijke",
    .obj [(.str "label", .str "Min"), (.str "bronwaarde", .str "min")]),
  (.str "opsteller", .obj [(.str "label", .str "Op"), (.str "bronwaarde", .str "op")]),
  (.str "publisher", .obj [(.str "label", .str "Pub")]),
  (.str "language", .obj [(.str "label", .str "Nederlands")]),
  (.str "titelcollectie", .obj [(.str "officieleTitel", .str "Titel")]),
  (.str "classificatiecollectie", .obj sampleClassEntries),
  (.str "extraMetadata", .arr [
    .obj [(.str "prefix", .str "plooi.displayfield"),
          (.str "velden", .arr [
            .obj [(.str "key", .str "vergaderjaar"),
                  (.str "values", .arr [.str "2023-2024"])],
            .obj [(.str "key", .str "other"),
                  (.str "values", .arr [.str "v1", .str "v2"])]])],
    .obj [(.str "prefix", .str "something.else")]])]

/-- Entries of a fully populated, schema-conforming payload. -/
def samplePayloadEntries : List (Json × Json) := [
  (.str "document", .obj sampleDocEntries),
  (.str "versies", .arr [.obj [
    (.str "bestanden", .arr [.obj [
      (.str "mime-type", .str "application/pdf"),
      (.str "bestandsnaam", .str "f.pdf"),
      (.str "grootte", .num 1234),
      (.str "paginas", .num 10),
      (.str "url", .str "https://dl"),
      (.str "hash", .str "abc")]]),
    (.str "openbaarmakingsdatum", .str "2024-03-05T14:30:00.123456Z"),
    (.str "mutatiedatumtijd", .str "2024-03-06T09:05:00Z")]]),
  (.str "plooiIntern", .obj [(.str "aanbieder", .str "A"),
    (.str "sourceLabel", .str "S"), (.str "publicatiestatus", .str "P")])]

def sampleBundle : Bundle :=
  ⟨"https://x/details/1", some "2024-03-05T14:30:00Z", none,
    [⟨"https://api/doc", 200, some (.obj samplePayloadEntries), none⟩]⟩

/-- A payload whose classification has only `themas` label objects. -/
def themasBundle : Bundle :=
  ⟨"https://x/details/2", some "T0", none,
    [⟨"https://api/doc", 200, some (Json.obj [
      (.str "document", .obj [
        (.str "classificatiecollectie", .obj [
          (.str "themas", .arr
            [.obj [(.str "label", .str "X1")], .obj [(.str "label", .str "X2")]])])])]),
      none⟩]⟩

/-- Is this value the list of the two `themas` labels of `themasBundle`? -/
def isLabelListX : Json → Bool
  | .arr [.str a, .str b] => a == "X1" && b == "X2"
  | _ => false

/-- The extraction result maps no key at all to the `themas` label list. -/
def noThemasList (r : Exc MD) : Bool :=
  match r with
  | .ok md => md.all (fun p => !isLabelListX p.2)
  | .error _ => false

/-- The extraction result maps `themas` to the comma-joined label string. -/
def themasJoined (r : Exc MD) : Bool :=
  match r with
  | .ok md =>
      match lookupJ md (.str "themas") with
      | some (.str s) => s == "X1, X2"
      | _ => false
  | .error _ => false

/-! ### Lemmas about the embedded dict and list operations -/

theorem ok_bind {α β : Type} (a : α) (f : α → Exc β) :
    (Except.ok a : Exc α) >>= f = f a := rfl

theorem keyEq_eq {a b : Json} (h : keyEq a b = true) : a = b := by
  cases a <;> cases b <;> simp_all [keyEq]

theorem keyEq_refl_str (s : String) : keyEq (.str s) (.str s) = true := by
  simp [keyEq]

theorem keyEq_str_ne {a b : String} (h : a ≠ b) :
    keyEq (.str a) (.str b) = false := by
  simp [keyEq, h]

theorem lookupJ_setJ_self (md : List (Json × Json)) (k v : Json)
    (hk : keyEq k k = true) : lookupJ (setJ md k v) k = some v := by
  induction md with
  | nil => simp [setJ, lookupJ, hk]
  | cons p rest ih =>
      obtain ⟨k', v'⟩ := p
      cases h : keyEq k' k with
      | true => simp [setJ, h, lookupJ]
      | false => simp [setJ, h, lookupJ, ih]

theorem lookupJ_setJ_ne (md : List (Json × Json)) (kW rk v : Json)
    (h : keyEq kW rk = false) :
    lookupJ (setJ md kW v) rk = lookupJ md rk := by
  induction md with
  | nil => simp [setJ, lookupJ, h]
  | cons p rest ih =>
      obtain ⟨k', v'⟩ := p
      cases hk : keyEq k' kW with
      | true =>
          cases keyEq_eq hk
          simp [setJ, hk, lookupJ, h]
      | false => simp [setJ, hk, lookupJ, ih]

theorem lookupJ_psS_self (md : MD) (k : String) (v : Json) :
    lookupJ (psS md k v) (.str k) = some v :=
  lookupJ_setJ_self md _ v (keyEq_refl_str k)

theorem lookupJ_psS_ne (md : MD) (a : String) (v : Json) (rk : String)
    (h : a ≠ rk) :
    lookupJ (psS md a v) (.str rk) = lookupJ md (.str rk) :=
  lookupJ_setJ_ne md _ _ v (keyEq_str_ne h)

theorem any_keyEq_eq_isSome (kvs : List (Json × Json)) (k : Json) :
    (kvs.any (fun p => keyEq p.1 k)) = (lookupJ kvs k).isSome := by
  induction kvs with
  | nil => rfl
  | cons p rest ih =>
      cases h : keyEq p.1 k <;> simp [List.any_cons, lookupJ, h, ih]

theorem data_append (a b : String) : (a ++ b).data = a.data ++ b.data := by
  cases a; cases b; rfl

theorem values_suffix_ne (s t : String)
    (h : ¬ ("_values".data <:+ t.data)) : s ++ "_values" ≠ t := by
  intro he
  apply h
  rw [← he, data_append]
  exact List.suffix_append _ _

theorem values_ne_emf (s : String) :
    s ++ "_values" ≠ "extra_metadata_fields" :=
  values_suffix_ne _ _ (by decide)

theorem values_ne_woo (s : String) :
    s ++ "_values" ≠ "woo_informatiecategorie" :=
  values_suffix_ne _ _ (by decide)

theorem values_ne_cats (s : String) :
    s ++ "_values" ≠ "informatiecategorieen" :=
  values_suffix_ne _ _ (by decide)

theorem strsOf_spec (xs : List Json) (h : xs.all Json.isStr = true) :
    xs = (strsOf xs).map Json.str := by
  induction xs with
  | nil => rfl
  | cons x rest ih =>
      simp only [List.all_cons, Bool.and_eq_true] at h
      obtain ⟨hx, hrest⟩ := h
      cases x <;> simp [Json.isStr] at hx
      rename_i s
      have hs : strsOf (Json.str s :: rest) = s :: strsOf rest := rfl
      rw [hs, List.map_cons, ← ih hrest]

theorem mapStrs_ok (ss : List String) : mapStrs (ss.map Json.str) = .ok ss := by
  induction ss with
  | nil => rfl
  | cons s rest ih => simp [mapStrs, asStr, ih, ok_bind]

theorem joinStrs_strs (ss : List String) :
    joinStrs ", " (ss.map Json.str) = .ok (joinWith ", " ss) := by
  simp [joinStrs, mapStrs_ok, ok_bind]

theorem mapExc_labels (xs : List Json) (h : xs.all isLabelObj = true) :
    mapExc (fun t => jget t "label" (.str "")) xs
      = .ok ((labelStrings xs).map Json.str) := by
  induction xs with
  | nil => rfl
  | cons x rest ih =>
      simp only [List.all_cons, Bool.and_eq_true] at h
      obtain ⟨hx, hrest⟩ := h
      have hxv : jget x "label" (.str "") = .ok (.str (labelString x)) := by
        cases x <;> simp [isLabelObj] at hx
        rename_i kvs
        rcases hl : lookupJ kvs (.str "label") with _ | v
        · simp [jget, hl, labelString]
        · rw [optIs, hl] at hx
          cases v <;> simp [Json.isStr] at hx
          simp [jget, hl, labelString]
      simp [mapExc, hxv, ok_bind, ih hrest, labelStrings, labelString]

theorem labelsOf_ok (xs : List Json) (h : xs.all isLabelObj = true) :
    labelsOf (.arr xs) = .ok ((labelStrings xs).map Json.str) := by
  unfold labelsOf
  rw [show jiter (.arr xs) = .ok xs from rfl, ok_bind]
  exact mapExc_labels xs h

theorem getD_obj_of_optIs {kvs : List (Json × Json)} {k : String}
    (h : optIs kvs k Json.isObj = true) :
    ∃ okvs, (lookupJ kvs (.str k)).getD (.obj []) = .obj okvs := by
  unfold optIs at h
  rcases hl : lookupJ kvs (.str k) with _ | v
  · exact ⟨[], rfl⟩
  · rw [hl] at h
    cases v <;> simp [Json.isObj] at h
    exact ⟨_, rfl⟩

theorem getD_arr_of_optIs {kvs : List (Json × Json)} {k : String}
    {pred : Json → Bool} (h : optIs kvs k (isArrOf pred) = true) :
    ∃ xs, (lookupJ kvs (.str k)).getD (.arr []) = .arr xs ∧ xs.all pred = true := by
  unfold optIs at h
  rcases hl : lookupJ kvs (.str k) with _ | v
  · exact ⟨[], rfl, rfl⟩
  · rw [hl] at h
    cases v <;> simp [isArrOf] at h
    exact ⟨_, rfl, by simpa using h⟩

/-! ### Success of the extractor sections on schema-conforming documents -/

theorem basicSection_ok (b : Bundle) (dkvs : List (Json × Json))
    (hids : optIs dkvs "identifiers" Json.isArr = true) :
    ∃ md, basicSection b (.obj dkvs) = .ok md := by
  unfold basicSection
  simp only [jget, jgetOpt, ok_bind]
  rcases hl : lookupJ dkvs (.str "identifiers") with _ | v
  · exact ⟨_, rfl⟩
  · unfold optIs at hids
    rw [hl] at hids
    cases v <;> simp [Json.isArr] at hids
    rename_i xs
    cases xs
    · exact ⟨_, rfl⟩
    · exact ⟨_, rfl⟩

theorem datesSection_ok (md0 : MD) (dkvs : List (Json × Json))
    (hg : optIs dkvs "geldigheid" Json.isObj = true) :
    ∃ md, datesSection md0 (.obj dkvs) = .ok md := by
  obtain ⟨gkvs, hv⟩ := getD_obj_of_optIs hg
  unfold datesSection
  simp only [jget, ok_bind, hv]
  exact ⟨_, rfl⟩

theorem orgsSection_ok (md0 : MD) (dkvs : List (Json × Json))
    (h1 : optIs dkvs "verantwoordelijke" Json.isObj = true)
    (h2 : optIs dkvs "opsteller" Json.isObj = true)
    (h3 : optIs dkvs "publisher" Json.isObj = true)
    (h4 : optIs dkvs "language" Json.isObj = true)
    (h5 : optIs dkvs "titelcollectie" Json.isObj = true) :
    ∃ md, orgsSection md0 (.obj dkvs) = .ok md := by
  obtain ⟨k1, hv1⟩ := getD_obj_of_optIs h1
  obtain ⟨k2, hv2⟩ := getD_obj_of_optIs h2
  obtain ⟨k3, hv3⟩ := getD_obj_of_optIs h3
  obtain ⟨k4, hv4⟩ := getD_obj_of_optIs h4
  obtain ⟨k5, hv5⟩ := getD_obj_of_optIs h5
  unfold orgsSection
  simp only [jget, ok_bind, hv1, hv2, hv3, hv4, hv5]
  exact ⟨_, rfl⟩

theorem classOK_obj {ckvs : List (Json × Json)}
    (h : classOK (.obj ckvs) = true) :
    optIs ckvs "documentsoorten" docsoortPred = true
    ∧ optIs ckvs "themas" (isArrOf isLabelObj) = true
    ∧ optIs ckvs "informatiecategorieen" (isArrOf isLabelObj) = true := by
  unfold classOK at h
  simp only [Bool.and_eq_true] at h
  exact ⟨h.1.1, h.1.2, h.2⟩

theorem classOK_shape {c : Json} (h : classOK c = true) :
    ∃ ckvs, c = .obj ckvs
      ∧ optIs ckvs "documentsoorten" docsoortPred = true
      ∧ optIs ckvs "themas" (isArrOf isLabelObj) = true
      ∧ optIs ckvs "informatiecategorieen" (isArrOf isLabelObj) = true := by
  cases c with
  | obj ckvs =>
      unfold classOK at h
      simp only [Bool.and_eq_true] at h
      exact ⟨ckvs, rfl, h.1.1, h.1.2, h.2⟩
  | null => simp [classOK] at h
  | bool b => simp [classOK] at h
  | num n => simp [classOK] at h
  | str s => simp [classOK] at h
  | arr xs => simp [classOK] at h

theorem docsoortPred_shape {d : Json} (h : docsoortPred d = true) :
    d = .arr [] ∨ ∃ xkvs t, d = .arr (.obj xkvs :: t) := by
  cases d with
  | arr xs =>
      cases xs with
      | nil => exact .inl rfl
      | cons x t =>
          simp only [docsoortPred] at h
          cases x <;> simp [Json.isObj] at h
          exact .inr ⟨_, _, rfl⟩
  | null => simp [docsoortPred] at h
  | bool b => simp [docsoortPred] at h
  | num n => simp [docsoortPred] at h
  | str s => simp [docsoortPred] at h
  | obj kvs => simp [docsoortPred] at h

theorem classSection_ok (md0 : MD) (dkvs : List (Json × Json))
    (hc : optIs dkvs "classificatiecollectie" classOK = true) :
    ∃ md, classSection md0 (.obj dkvs) = .ok md := by
  unfold classSection
  simp only [jget, ok_bind]
  rcases hl : lookupJ dkvs (.str "classificatiecollectie") with _ | c
  · exact ⟨_, rfl⟩
  · unfold optIs at hc
    rw [hl] at hc
    obtain ⟨ckvs, rfl, hds, hth, hic⟩ := classOK_shape hc
    obtain ⟨ts, hts, htall⟩ := getD_arr_of_optIs hth
    obtain ⟨cs, hcs, hcall⟩ := getD_arr_of_optIs hic
    simp only [Option.getD_some, jget, ok_bind, hts, hcs,
      labelsOf_ok ts htall, labelsOf_ok cs hcall, joinStrs_strs]
    rcases hd : lookupJ ckvs (.str "documentsoorten") with _ | d
    · exact ⟨_, rfl⟩
    · unfold optIs at hds
      rw [hd] at hds
      rcases docsoortPred_shape hds with rfl | ⟨xkvs, t, rfl⟩
      · exact ⟨_, rfl⟩
      · exact ⟨_, rfl⟩

theorem classSection_values (md0 : MD) (dkvs ckvs : List (Json × Json))
    (cats : List Json)
    (hcl : lookupJ dkvs (.str "classificatiecollectie") = some (.obj ckvs))
    (hck : classOK (.obj ckvs) = true)
    (hcats : lookupJ ckvs (.str "informatiecategorieen") = some (.arr cats)) :
    ∃ md, classSection md0 (.obj dkvs) = .ok md ∧
      lookupJ md (.str "woo_informatiecategorie")
        = some (.str (joinWith ", " (labelStrings cats))) ∧
      lookupJ md (.str "informatiecategorieen")
        = some (.arr ((labelStrings cats).map Json.str)) := by
  unfold classSection
  simp only [jget, ok_bind, hcl, Option.getD_some]
  obtain ⟨hds, hth, hic⟩ := classOK_obj hck
  obtain ⟨ts, hts, htall⟩ := getD_arr_of_optIs hth
  unfold optIs at hic
  rw [hcats] at hic
  simp only [isArrOf] at hic
  have hcall : cats.all isLabelObj = true := hic
  have hcd : (lookupJ ckvs (.str "informatiecategorieen")).getD (.arr [])
      = .arr cats := by rw [hcats]; rfl
  simp only [jget, ok_bind, hts, hcd, labelsOf_ok ts htall,
    labelsOf_ok cats hcall, joinStrs_strs]
  have lk : ∀ md' : MD,
      lookupJ (psS (psS md' "woo_informatiecategorie"
          (.str (joinWith ", " (labelStrings cats)))) "informatiecategorieen"
          (.arr ((labelStrings cats).map Json.str)))
        (.str "woo_informatiecategorie")
        = some (.str (joinWith ", " (labelStrings cats)))
      ∧ lookupJ (psS (psS md' "woo_informatiecategorie"
          (.str (joinWith ", " (labelStrings cats)))) "informatiecategorieen"
          (.arr ((labelStrings cats).map Json.str)))
        (.str "informatiecategorieen")
        = some (.arr ((labelStrings cats).map Json.str)) := by
    intro md'
    constructor
    · rw [lookupJ_psS_ne _ _ _ _ (by decide), lookupJ_psS_self]
    · rw [lookupJ_psS_self]
  rcases hd : lookupJ ckvs (.str "documentsoorten") with _ | d
  · exact ⟨_, rfl, (lk _).1, (lk _).2⟩
  · unfold optIs at hds
    rw [hd] at hds
    rcases docsoortPred_shape hds with rfl | ⟨xkvs, t, rfl⟩
    · exact ⟨_, rfl, (lk _).1, (lk _).2⟩
    · exact ⟨_, rfl, (lk _).1, (lk _).2⟩

/-! ### The extra-metadata loop -/

theorem bind_ok_inv {α β : Type} {x : Exc α} {f : α → Exc β} {b : β}
    (h : x >>= f = .ok b) : ∃ a, x = .ok a ∧ f a = .ok b := by
  cases x with
  | ok a => exact ⟨a, rfl, h⟩
  | error e => exact absurd h (by simp [Bind.bind, Except.bind])

theorem error_bind {α β : Type} (e : String) (f : α → Exc β) :
    (Except.error e : Exc α) >>= f = .error e := rfl

theorem if_bool_true {α : Type} (a b : α) :
    (if (true = true) then a else b) = a := rfl

theorem if_bool_false {α : Type} (a b : α) :
    (if (false = true) then a else b) = b := rfl

theorem veldOK_shape {v : Json} (h : veldOK v = true) :
    ∃ vkvs, v = .obj vkvs
      ∧ (∃ k : String, (lookupJ vkvs (.str "key")).getD (.str "") = .str k
            ∧ k ≠ "extra_metadata_fields")
      ∧ (∃ ss : List String,
            (lookupJ vkvs (.str "values")).getD (.arr []) = .arr (ss.map Json.str)) := by
  cases v with
  | obj vkvs =>
      unfold veldOK at h
      simp only [Bool.and_eq_true] at h
      obtain ⟨hk, hv⟩ := h
      refine ⟨vkvs, rfl, ?_, ?_⟩
      · rcases hl : lookupJ vkvs (.str "key") with _ | kv
        · exact ⟨"", rfl, by decide⟩
        · rw [hl] at hk
          cases kv <;> simp at hk
          rename_i k
          exact ⟨k, rfl, by simpa using hk⟩
      · obtain ⟨xs, hxs, hall⟩ := getD_arr_of_optIs hv
        exact ⟨strsOf xs, by rw [hxs]; exact congrArg Json.arr (strsOf_spec xs hall)⟩
  | null => simp [veldOK] at h
  | bool b => simp [veldOK] at h
  | num n => simp [veldOK] at h
  | str s => simp [veldOK] at h
  | arr xs => simp [veldOK] at h

theorem firstOrEmpty_strs (ss : List String) :
    firstOrEmpty (.arr (ss.map Json.str)) = .ok (firstStr ss) := by
  cases ss <;> rfl

theorem joinedOrEmpty_strs (ss : List String) :
    joinedOrEmpty (.arr (ss.map Json.str)) = .ok (.str (joinWith ", " ss)) := by
  cases ss with
  | nil => rfl
  | cons s t =>
      have h := joinStrs_strs (s :: t)
      simp only [List.map_cons] at h
      simp [joinedOrEmpty, truthy, jiter, ok_bind, h]

/-- Success and preservation of the `extra_metadata_fields` slot through
the inner `velden` loop. -/
theorem veldenLoop_ok (vs : List Json) : ∀ (md : MD) (ekvs : List (Json × Json)),
    vs.all veldOK = true →
    lookupJ md (.str "extra_metadata_fields") = some (.obj ekvs) →
    ∃ md' ekvs', veldenLoop md vs = .ok md'
      ∧ lookupJ md' (.str "extra_metadata_fields") = some (.obj ekvs') := by
  induction vs with
  | nil =>
      intro md ekvs _ hslot
      exact ⟨md, ekvs, rfl, hslot⟩
  | cons v rest ih =>
      intro md ekvs hall hslot
      simp only [List.all_cons, Bool.and_eq_true] at hall
      obtain ⟨hv, hrest⟩ := hall
      obtain ⟨vkvs, rfl, ⟨k, hK, hkne⟩, ⟨ss, hV⟩⟩ := veldOK_shape hv
      simp only [veldenLoop, jget, ok_bind, hK, hV, hslot, Option.getD_some,
        firstOrEmpty_strs, joinedOrEmpty_strs, pySetItem, hashable, if_true]
      by_cases hk1 : k = "vergaderjaar"
      · subst hk1
        simp only [keyEq_refl_str, if_true, ok_bind]
        apply ih _ (setJ ekvs (.str "vergaderjaar") _) hrest
        rw [lookupJ_psS_ne _ _ _ _ (by decide), lookupJ_psS_ne _ _ _ _ (by decide),
          lookupJ_setJ_self _ _ _ (keyEq_refl_str _)]
      · rw [if_neg (by simp [keyEq, hk1])]
        by_cases hk2 : k = "documentsubsoort"
        · subst hk2
          simp only [keyEq_refl_str, if_true, ok_bind]
          apply ih _ (setJ ekvs (.str "documentsubsoort") _) hrest
          rw [lookupJ_psS_ne _ _ _ _ (by decide), lookupJ_psS_ne _ _ _ _ (by decide),
            lookupJ_setJ_self _ _ _ (keyEq_refl_str _)]
        · rw [if_neg (by simp [keyEq, hk2])]
          simp only [mdSetDyn, hashable, if_true, ok_bind, pyStr]
          apply ih _ (setJ ekvs (.str k) _) hrest
          rw [lookupJ_setJ_ne _ _ _ _ (keyEq_str_ne (values_ne_emf k)),
            lookupJ_setJ_ne _ _ _ _ (keyEq_str_ne hkne),
            lookupJ_setJ_self _ _ _ (keyEq_refl_str _)]

/-- A successful `velden` loop over key-safe fields does not change the
two classification output keys. -/
theorem veldenLoop_pres (vs : List Json) : ∀ (md md' : MD),
    veldenLoop md vs = .ok md' →
    vs.all veldKeySafe = true →
    lookupJ md' (.str "woo_informatiecategorie")
      = lookupJ md (.str "woo_informatiecategorie")
    ∧ lookupJ md' (.str "informatiecategorieen")
      = lookupJ md (.str "informatiecategorieen") := by
  induction vs with
  | nil =>
      intro md md' h _
      simp only [veldenLoop] at h
      obtain rfl : md = md' := by simpa using h
      exact ⟨rfl, rfl⟩
  | cons v rest ih =>
      intro md md' h hsafe
      simp only [List.all_cons, Bool.and_eq_true] at hsafe
      obtain ⟨hsv, hsr⟩ := hsafe
      simp only [veldenLoop] at h
      cases v with
      | null => simp [jget, error_bind] at h
      | bool b => simp [jget, error_bind] at h
      | num n => simp [jget, error_bind] at h
      | str s => simp [jget, error_bind] at h
      | arr xs => simp [jget, error_bind] at h
      | obj vkvs =>
          simp only [jget, ok_bind] at h
          simp only [veldKeySafe, Bool.and_eq_true, Bool.not_eq_true'] at hsv
          obtain ⟨hs1, hs2⟩ := hsv
          obtain ⟨fv, hfv, h⟩ := bind_ok_inv h
          obtain ⟨avs, havs, h⟩ := bind_ok_inv h
          obtain ⟨emf', hemf, h⟩ := bind_ok_inv h
          cases hc1 : keyEq ((lookupJ vkvs (.str "key")).getD (.str ""))
              (.str "vergaderjaar") with
          | true =>
              rw [hc1, if_bool_true] at h
              obtain ⟨p1, p2⟩ := ih _ md' h hsr
              constructor
              · rw [p1, lookupJ_psS_ne _ _ _ _ (by decide),
                  lookupJ_psS_ne _ _ _ _ (by decide),
                  lookupJ_setJ_ne _ _ _ _ (keyEq_str_ne (by decide))]
              · rw [p2, lookupJ_psS_ne _ _ _ _ (by decide),
                  lookupJ_psS_ne _ _ _ _ (by decide),
                  lookupJ_setJ_ne _ _ _ _ (keyEq_str_ne (by decide))]
          | false =>
              rw [hc1, if_bool_false] at h
              cases hc2 : keyEq ((lookupJ vkvs (.str "key")).getD (.str ""))
                  (.str "documentsubsoort") with
              | true =>
                  rw [hc2, if_bool_true] at h
                  obtain ⟨p1, p2⟩ := ih _ md' h hsr
                  constructor
                  · rw [p1, lookupJ_psS_ne _ _ _ _ (by decide),
                      lookupJ_psS_ne _ _ _ _ (by decide),
                      lookupJ_setJ_ne _ _ _ _ (keyEq_str_ne (by decide))]
                  · rw [p2, lookupJ_psS_ne _ _ _ _ (by decide),
                      lookupJ_psS_ne _ _ _ _ (by decide),
                      lookupJ_setJ_ne _ _ _ _ (keyEq_str_ne (by decide))]
              | false =>
                  rw [hc2, if_bool_false] at h
                  obtain ⟨md3, hset, hrec⟩ := bind_ok_inv h
                  unfold mdSetDyn at hset
                  cases hh : hashable ((lookupJ vkvs (.str "key")).getD (.str "")) with
                  | false =>
                      rw [hh, if_bool_false] at hset
                      exact absurd hset (by simp)
                  | true =>
                      rw [hh, if_bool_true] at hset
                      simp only [Except.ok.injEq] at hset
                      subst hset
                      obtain ⟨p1, p2⟩ := ih _ md' hrec hsr
                      constructor
                      · rw [p1,
                          lookupJ_setJ_ne _ _ _ _ (keyEq_str_ne (values_ne_woo _)),
                          lookupJ_setJ_ne _ _ _ _ hs1,
                          lookupJ_setJ_ne _ _ _ _ (keyEq_str_ne (by decide))]
                      · rw [p2,
                          lookupJ_setJ_ne _ _ _ _ (keyEq_str_ne (values_ne_cats _)),
                          lookupJ_setJ_ne _ _ _ _ hs2,
                          lookupJ_setJ_ne _ _ _ _ (keyEq_str_ne (by decide))]

theorem extrasLoop_ok (es : List Json) : ∀ (md : MD) (ekvs : List (Json × Json)),
    es.all extraOK = true →
    lookupJ md (.str "extra_metadata_fields") = some (.obj ekvs) →
    ∃ md', extrasLoop md es = .ok md' := by
  induction es with
  | nil =>
      intro md ekvs _ _
      exact ⟨md, rfl⟩
  | cons e rest ih =>
      intro md ekvs hall hslot
      simp only [List.all_cons, Bool.and_eq_true] at hall
      obtain ⟨he, hrest⟩ := hall
      cases e with
      | null => simp [extraOK] at he
      | bool b => simp [extraOK] at he
      | num n => simp [extraOK] at he
      | str s => simp [extraOK] at he
      | arr xs => simp [extraOK] at he
      | obj pkvs =>
          have he' : (if keyEq ((lookupJ pkvs (.str "prefix")).getD .null)
                (.str "plooi.displayfield") = true
              then optIs pkvs "velden" (isArrOf veldOK) else true) = true := he
          simp only [extrasLoop, jgetOpt, ok_bind]
          cases hc : keyEq ((lookupJ pkvs (.str "prefix")).getD .null)
              (.str "plooi.displayfield") with
          | false =>
              rw [if_bool_false]
              exact ih md ekvs hrest hslot
          | true =>
              rw [hc, if_bool_true] at he'
              rw [if_bool_true]
              obtain ⟨vs0, hvs0, hallv⟩ := getD_arr_of_optIs he'
              simp only [jget, ok_bind, hvs0, jiter]
              obtain ⟨md1, ekvs1, hveq, hslot1⟩ := veldenLoop_ok vs0 md ekvs hallv hslot
              rw [hveq, ok_bind]
              exact ih md1 ekvs1 hrest hslot1

theorem extrasLoop_pres (es : List Json) : ∀ (md md' : MD),
    extrasLoop md es = .ok md' →
    es.all extraSafe = true →
    lookupJ md' (.str "woo_informatiecategorie")
      = lookupJ md (.str "woo_informatiecategorie")
    ∧ lookupJ md' (.str "informatiecategorieen")
      = lookupJ md (.str "informatiecategorieen") := by
  induction es with
  | nil =>
      intro md md' h _
      simp only [extrasLoop] at h
      obtain rfl : md = md' := by simpa using h
      exact ⟨rfl, rfl⟩
  | cons e rest ih =>
      intro md md' h hsafe
      simp only [List.all_cons, Bool.and_eq_true] at hsafe
      obtain ⟨hse, hsr⟩ := hsafe
      simp only [extrasLoop] at h
      cases e with
      | null => simp [jgetOpt, error_bind] at h
      | bool b => simp [jgetOpt, error_bind] at h
      | num n => simp [jgetOpt, error_bind] at h
      | str s => simp [jgetOpt, error_bind] at h
      | arr xs => simp [jgetOpt, error_bind] at h
      | obj pkvs =>
          simp only [jgetOpt, ok_bind] at h
          have hse' : (if keyEq ((lookupJ pkvs (.str "prefix")).getD .null)
                (.str "plooi.displayfield") = true
              then veldenSafe ((lookupJ pkvs (.str "velden")).getD (.arr []))
              else true) = true := hse
          cases hc : keyEq ((lookupJ pkvs (.str "prefix")).getD .null)
              (.str "plooi.displayfield") with
          | false =>
              rw [hc, if_bool_false] at h
              exact ih md md' h hsr
          | true =>
              rw [hc, if_bool_true] at h hse'
              simp only [jget, ok_bind] at h
              obtain ⟨vs, hiter, h⟩ := bind_ok_inv h
              obtain ⟨md1, hvl, hrec⟩ := bind_ok_inv h
              unfold veldenSafe at hse'
              rw [hiter] at hse'
              obtain ⟨q1, q2⟩ := veldenLoop_pres vs md md1 hvl (by simpa using hse')
              obtain ⟨p1, p2⟩ := ih md1 md' hrec hsr
              exact ⟨p1.trans q1, p2.trans q2⟩

theorem extrasSection_ok (md0 : MD) (dkvs : List (Json × Json))
    (hx : optIs dkvs "extraMetadata" (isArrOf extraOK) = true) :
    ∃ md, extrasSection md0 (.obj dkvs) = .ok md := by
  obtain ⟨es, hes, hall⟩ := getD_arr_of_optIs hx
  unfold extrasSection
  simp only [jget, ok_bind, hes, jiter]
  exact extrasLoop_ok es _ [] hall (lookupJ_psS_self _ _ _)

theorem extrasSection_pres (md0 md' : MD) (dkvs : List (Json × Json))
    (h : extrasSection md0 (.obj dkvs) = .ok md')
    (hsafe : docExtrasSafe dkvs = true) :
    lookupJ md' (.str "woo_informatiecategorie")
      = lookupJ md0 (.str "woo_informatiecategorie")
    ∧ lookupJ md' (.str "informatiecategorieen")
      = lookupJ md0 (.str "informatiecategorieen") := by
  unfold extrasSection at h
  simp only [jget, ok_bind] at h
  obtain ⟨es, hiter, h⟩ := bind_ok_inv h
  unfold docExtrasSafe at hsafe
  rw [hiter] at hsafe
  obtain ⟨p1, p2⟩ := extrasLoop_pres es _ md' h hsafe
  constructor
  · rw [p1, lookupJ_psS_ne _ _ _ _ (by decide)]
  · rw [p2, lookupJ_psS_ne _ _ _ _ (by decide)]

/-! ### The file-information and PLOOI sections -/

theorem optIs_getD {kvs : List (Json × Json)} {k : String} {pred : Json → Bool}
    {d : Json} (h : optIs kvs k pred = true) (hd : pred d = true) :
    pred ((lookupJ kvs (.str k)).getD d) = true := by
  unfold optIs at h
  rcases hl : lookupJ kvs (.str k) with _ | v
  · simpa using hd
  · rw [hl] at h
    simpa using h

theorem getD_str_of_optIs {kvs : List (Json × Json)} {k : String}
    (h : optIs kvs k Json.isStr = true) :
    ∃ m : String, (lookupJ kvs (.str k)).getD (.str "") = .str m := by
  unfold optIs at h
  rcases hl : lookupJ kvs (.str k) with _ | v
  · exact ⟨"", rfl⟩
  · rw [hl] at h
    cases v <;> simp [Json.isStr] at h
    exact ⟨_, rfl⟩

theorem versiesPred_shape {v : Json} (h : versiesPred v = true) :
    v = .arr [] ∨ ∃ vkvs t, v = .arr (.obj vkvs :: t)
      ∧ optIs vkvs "bestanden" bestandenPred = true := by
  cases v with
  | arr xs =>
      cases xs with
      | nil => exact .inl rfl
      | cons v0 t =>
          simp only [versiesPred] at h
          cases v0 <;> simp [versieFirstOK] at h
          exact .inr ⟨_, _, rfl, h⟩
  | null => simp [versiesPred] at h
  | bool b => simp [versiesPred] at h
  | num n => simp [versiesPred] at h
  | str s => simp [versiesPred] at h
  | obj kvs => simp [versiesPred] at h

theorem bestandenPred_shape {bb : Json} (h : bestandenPred bb = true) :
    bb = .arr [] ∨ ∃ bkvs t, bb = .arr (.obj bkvs :: t)
      ∧ optIs bkvs "mime-type" Json.isStr = true := by
  cases bb with
  | arr xs =>
      cases xs with
      | nil => exact .inl rfl
      | cons b0 t =>
          simp only [bestandenPred] at h
          cases b0 <;> simp [bestandOK] at h
          exact .inr ⟨_, _, rfl, h⟩
  | null => simp [bestandenPred] at h
  | bool b => simp [bestandenPred] at h
  | num n => simp [bestandenPred] at h
  | str s => simp [bestandenPred] at h
  | obj kvs => simp [bestandenPred] at h

theorem bestandMime_ok_str (m : String) : ∃ j, bestandMime (.str m) = .ok j := by
  unfold bestandMime
  by_cases hpdf : m = "application/pdf"
  · subst hpdf
    exact ⟨_, rfl⟩
  · rw [keyEq_str_ne hpdf, if_bool_false]
    by_cases hme : m = ""
    · subst hme
      exact ⟨_, rfl⟩
    · have ht : truthy (.str m) = true := by
        simp only [truthy, Bool.not_eq_true']
        exact (Bool.not_eq_true _).mp (fun hemp => hme ((String.isEmpty_iff m).mp hemp))
      rw [ht, if_bool_true]
      exact ⟨_, rfl⟩

theorem bestandFields_ok (md0 : MD) (bkvs : List (Json × Json)) (bt : Json) :
    ∃ md, bestandFields md0 (.obj bkvs) bt = .ok md := by
  unfold bestandFields
  simp only [jget, ok_bind]
  exact ⟨_, rfl⟩

theorem bestandSection_ok (md0 : MD) (bestanden : Json)
    (hB : bestandenPred bestanden = true) :
    ∃ md, bestandSection md0 bestanden = .ok md := by
  unfold bestandSection
  rcases bestandenPred_shape hB with rfl | ⟨bkvs, t2, rfl, hm⟩
  · exact ⟨_, rfl⟩
  · rw [show truthy (Json.arr (Json.obj bkvs :: t2)) = true from rfl, if_bool_true]
    simp only [jfirst, jget, ok_bind]
    obtain ⟨m, hm'⟩ := getD_str_of_optIs hm
    rw [hm']
    obtain ⟨bt, hbt⟩ := bestandMime_ok_str m
    rw [hbt, ok_bind]
    exact bestandFields_ok md0 bkvs bt

theorem fileTail_ok (md : MD) (vkvs : List (Json × Json)) :
    ∃ md', fileTail md (.obj vkvs) = .ok md' := by
  unfold fileTail
  simp only [jget, ok_bind]
  exact ⟨_, rfl⟩

theorem fileSection_ok (md0 : MD) (pkvs : List (Json × Json))
    (hv : optIs pkvs "versies" versiesPred = true) :
    ∃ md, fileSection md0 (.obj pkvs) = .ok md := by
  unfold fileSection
  simp only [jget, ok_bind]
  rcases hl : lookupJ pkvs (.str "versies") with _ | v
  · exact ⟨_, rfl⟩
  · unfold optIs at hv
    rw [hl] at hv
    rcases versiesPred_shape hv with rfl | ⟨vkvs, t, rfl, hb⟩
    · exact ⟨_, rfl⟩
    · rw [Option.getD_some,
        show truthy (Json.arr (Json.obj vkvs :: t)) = true from rfl, if_bool_true]
      simp only [jfirst, jget, ok_bind]
      have hB := optIs_getD hb (show bestandenPred (.arr []) = true from rfl)
      obtain ⟨md1, hmd1⟩ := bestandSection_ok md0 _ hB
      rw [hmd1, ok_bind]
      exact fileTail_ok md1 vkvs

theorem plooiSection_ok (md0 : MD) (pkvs dkvs : List (Json × Json))
    (hp : optIs pkvs "plooiIntern" Json.isObj = true) :
    ∃ md, plooiSection md0 (.obj pkvs) (.obj dkvs) = .ok md := by
  obtain ⟨ikvs, hv⟩ := getD_obj_of_optIs hp
  unfold plooiSection
  simp only [jget, ok_bind, hv]
  exact ⟨_, rfl⟩

theorem plooiSection_pres (md0 md' : MD) (p doc : Json)
    (h : plooiSection md0 p doc = .ok md') :
    lookupJ md' (.str "woo_informatiecategorie")
      = lookupJ md0 (.str "woo_informatiecategorie")
    ∧ lookupJ md' (.str "informatiecategorieen")
      = lookupJ md0 (.str "informatiecategorieen") := by
  unfold plooiSection at h
  obtain ⟨pli, hpli, h⟩ := bind_ok_inv h
  obtain ⟨a1, h1, h⟩ := bind_ok_inv h
  obtain ⟨a2, h2, h⟩ := bind_ok_inv h
  obtain ⟨a3, h3, h⟩ := bind_ok_inv h
  obtain ⟨a4, h4, h⟩ := bind_ok_inv h
  simp only [Except.ok.injEq] at h
  subst h
  constructor
  · rw [lookupJ_psS_ne _ _ _ _ (by decide), lookupJ_psS_ne _ _ _ _ (by decide),
      lookupJ_psS_ne _ _ _ _ (by decide), lookupJ_psS_ne _ _ _ _ (by decide)]
  · rw [lookupJ_psS_ne _ _ _ _ (by decide), lookupJ_psS_ne _ _ _ _ (by decide),
      lookupJ_psS_ne _ _ _ _ (by decide), lookupJ_psS_ne _ _ _ _ (by decide)]

theorem bestandFields_pres (md0 md' : MD) (b0 bt : Json)
    (h : bestandFields md0 b0 bt = .ok md') :
    lookupJ md' (.str "woo_informatiecategorie")
      = lookupJ md0 (.str "woo_informatiecategorie")
    ∧ lookupJ md' (.str "informatiecategorieen")
      = lookupJ md0 (.str "informatiecategorieen") := by
  unfold bestandFields at h
  obtain ⟨x1, h1, h⟩ := bind_ok_inv h
  obtain ⟨x2, h2, h⟩ := bind_ok_inv h
  obtain ⟨x3, h3, h⟩ := bind_ok_inv h
  obtain ⟨x4, h4, h⟩ := bind_ok_inv h
  obtain ⟨x5, h5, h⟩ := bind_ok_inv h
  simp only [Except.ok.injEq] at h
  subst h
  constructor
  · rw [lookupJ_psS_ne _ _ _ _ (by decide), lookupJ_psS_ne _ _ _ _ (by decide),
      lookupJ_psS_ne _ _ _ _ (by decide), lookupJ_psS_ne _ _ _ _ (by decide),
      lookupJ_psS_ne _ _ _ _ (by decide), lookupJ_psS_ne _ _ _ _ (by decide)]
  · rw [lookupJ_psS_ne _ _ _ _ (by decide), lookupJ_psS_ne _ _ _ _ (by decide),
      lookupJ_psS_ne _ _ _ _ (by decide), lookupJ_psS_ne _ _ _ _ (by decide),
      lookupJ_psS_ne _ _ _ _ (by decide), lookupJ_psS_ne _ _ _ _ (by decide)]

theorem bestandSection_pres (md0 md' : MD) (bestanden : Json)
    (h : bestandSection md0 bestanden = .ok md') :
    lookupJ md' (.str "woo_informatiecategorie")
      = lookupJ md0 (.str "woo_informatiecategorie")
    ∧ lookupJ md' (.str "informatiecategorieen")
      = lookupJ md0 (.str "informatiecategorieen") := by
  unfold bestandSection at h
  split at h
  · obtain ⟨b0, hb0, h⟩ := bind_ok_inv h
    obtain ⟨mt, hmt, h⟩ := bind_ok_inv h
    obtain ⟨bt, hbt, h⟩ := bind_ok_inv h
    exact bestandFields_pres md0 md' b0 bt h
  · simp only [Except.ok.injEq] at h
    subst h
    exact ⟨rfl, rfl⟩

theorem fileTail_pres (md0 md' : MD) (v0 : Json)
    (h : fileTail md0 v0 = .ok md') :
    lookupJ md' (.str "woo_informatiecategorie")
      = lookupJ md0 (.str "woo_informatiecategorie")
    ∧ lookupJ md' (.str "informatiecategorieen")
      = lookupJ md0 (.str "informatiecategorieen") := by
  unfold fileTail at h
  obtain ⟨od, hod, h⟩ := bind_ok_inv h
  obtain ⟨mdt, hmdt, h⟩ := bind_ok_inv h
  simp only [Except.ok.injEq] at h
  subst h
  constructor
  · rw [lookupJ_psS_ne _ _ _ _ (by decide), lookupJ_psS_ne _ _ _ _ (by decide),
      lookupJ_psS_ne _ _ _ _ (by decide), lookupJ_psS_ne _ _ _ _ (by decide)]
  · rw [lookupJ_psS_ne _ _ _ _ (by decide), lookupJ_psS_ne _ _ _ _ (by decide),
      lookupJ_psS_ne _ _ _ _ (by decide), lookupJ_psS_ne _ _ _ _ (by decide)]

theorem fileSection_pres (md0 md' : MD) (p : Json)
    (h : fileSection md0 p = .ok md') :
    lookupJ md' (.str "woo_informatiecategorie")
      = lookupJ md0 (.str "woo_informatiecategorie")
    ∧ lookupJ md' (.str "informatiecategorieen")
      = lookupJ md0 (.str "informatiecategorieen") := by
  unfold fileSection at h
  obtain ⟨versies, hvv, h⟩ := bind_ok_inv h
  split at h
  · obtain ⟨v0, hv0, h⟩ := bind_ok_inv h
    obtain ⟨bb, hbb, h⟩ := bind_ok_inv h
    obtain ⟨md1, hmd1, h⟩ := bind_ok_inv h
    obtain ⟨q1, q2⟩ := bestandSection_pres md0 md1 bb hmd1
    obtain ⟨p1, p2⟩ := fileTail_pres md1 md' v0 h
    exact ⟨p1.trans q1, p2.trans q2⟩
  · simp only [Except.ok.injEq] at h
    subst h
    exact ⟨rfl, rfl⟩

/-! ### Top-level totality and value tracking for the extractor -/

theorem docOK_parts {dkvs : List (Json × Json)} (h : docOK dkvs = true) :
    optIs dkvs "identifiers" Json.isArr = true
    ∧ optIs dkvs "geldigheid" Json.isObj = true
    ∧ optIs dkvs "verantwoordelijke" Json.isObj = true
    ∧ optIs dkvs "opsteller" Json.isObj = true
    ∧ optIs dkvs "publisher" Json.isObj = true
    ∧ optIs dkvs "language" Json.isObj = true
    ∧ optIs dkvs "titelcollectie" Json.isObj = true
    ∧ optIs dkvs "classificatiecollectie" classOK = true
    ∧ optIs dkvs "extraMetadata" (isArrOf extraOK) = true := by
  unfold docOK at h
  simp only [Bool.and_eq_true] at h
  exact ⟨h.1.1.1.1.1.1.1.1, h.1.1.1.1.1.1.1.2, h.1.1.1.1.1.1.2, h.1.1.1.1.1.2,
    h.1.1.1.1.2, h.1.1.1.2, h.1.1.2, h.1.2, h.2⟩

theorem payloadOK_obj {pkvs : List (Json × Json)}
    (hp : payloadOK (.obj pkvs) = true) (ht : truthy (.obj pkvs) = true) :
    documentPred pkvs = true
    ∧ optIs pkvs "versies" versiesPred = true
    ∧ optIs pkvs "plooiIntern" Json.isObj = true := by
  unfold payloadOK at hp
  rw [ht, if_bool_true] at hp
  simp only [Bool.and_eq_true] at hp
  exact ⟨hp.1.1, hp.1.2, hp.2⟩

theorem payloadOK_shape {p : Json} (hp : payloadOK p = true)
    (ht : truthy p = true) :
    ∃ pkvs, p = .obj pkvs := by
  unfold payloadOK at hp
  rw [ht, if_bool_true] at hp
  cases p with
  | obj pkvs => exact ⟨pkvs, rfl⟩
  | null => simp at hp
  | bool b => simp at hp
  | num n => simp at hp
  | str s => simp at hp
  | arr xs => simp at hp

theorem extractDoc_ok (b : Bundle) (pkvs dkvs : List (Json × Json))
    (hdoc : docOK dkvs = true)
    (hvers : optIs pkvs "versies" versiesPred = true)
    (hpli : optIs pkvs "plooiIntern" Json.isObj = true) :
    ∃ md, extractDoc b (.obj pkvs) (.obj dkvs) = .ok md := by
  obtain ⟨h1, h2, h3, h4, h5, h6, h7, h8, h9⟩ := docOK_parts hdoc
  obtain ⟨m1, e1⟩ := basicSection_ok b dkvs h1
  obtain ⟨m2, e2⟩ := datesSection_ok m1 dkvs h2
  obtain ⟨m3, e3⟩ := orgsSection_ok m2 dkvs h3 h4 h5 h6 h7
  obtain ⟨m4, e4⟩ := classSection_ok m3 dkvs h8
  obtain ⟨m5, e5⟩ := extrasSection_ok m4 dkvs h9
  obtain ⟨m6, e6⟩ := fileSection_ok m5 pkvs hvers
  obtain ⟨m7, e7⟩ := plooiSection_ok m6 pkvs dkvs hpli
  refine ⟨m7, ?_⟩
  unfold extractDoc
  rw [e1, ok_bind, e2, ok_bind, e3, ok_bind, e4, ok_bind, e5, ok_bind,
    e6, ok_bind, e7]

/-- Totality of the extractor on schema-conforming bundles. -/
theorem extract_total (b : Bundle) (h : BundleOK b = true) :
    ∃ md, extract_formatted_metadata b = .ok md := by
  unfold extract_formatted_metadata
  cases hemp : b.captured.isEmpty with
  | true => exact ⟨[], by rw [if_bool_true]⟩
  | false =>
      rw [if_bool_false]
      unfold BundleOK at h
      rcases hfd : firstData b.captured with _ | p
      · exact ⟨[], rfl⟩
      · rw [hfd] at h
        show ∃ md, extractPayload b p = .ok md
        unfold extractPayload
        cases htr : truthy p with
        | false => exact ⟨[], rfl⟩
        | true =>
            obtain ⟨pkvs, rfl⟩ := payloadOK_shape h htr
            obtain ⟨hdocp, hvers, hpli⟩ := payloadOK_obj h htr
            unfold documentPred at hdocp
            rw [Bool.not_true, if_bool_false]
            rcases hdl : lookupJ pkvs (.str "document") with _ | dv
            · refine ⟨[], ?_⟩
              have hany : (pkvs.any (fun q => keyEq q.1 (.str "document"))) = false := by
                rw [any_keyEq_eq_isSome, hdl]
                rfl
              simp only [jhas, hany]
            · rw [hdl] at hdocp
              cases dv with
              | obj dkvs =>
                  have hany : (pkvs.any (fun q => keyEq q.1 (.str "document"))) = true := by
                    rw [any_keyEq_eq_isSome, hdl]
                    rfl
                  obtain ⟨md, hmd⟩ := extractDoc_ok b pkvs dkvs hdocp hvers hpli
                  refine ⟨md, ?_⟩
                  simp only [jhas, hany, jindexS, hdl]
                  exact hmd
              | null => simp at hdocp
              | bool b2 => simp at hdocp
              | num n => simp at hdocp
              | str s => simp at hdocp
              | arr xs => simp at hdocp

theorem lookupJ_some_ne_nil {kvs : List (Json × Json)} {k v : Json}
    (h : lookupJ kvs k = some v) : kvs ≠ [] := by
  intro he
  subst he
  simp [lookupJ] at h

/-- Value tracking: a conforming bundle whose payload carries an
`informatiecategorieen` classification yields both the comma-joined label
string and the label list in the output, provided no extra-metadata field
is keyed by one of the two output keys. -/
theorem extract_infocats (b : Bundle) (pkvs dkvs ckvs : List (Json × Json))
    (cats : List Json)
    (hb : BundleOK b = true)
    (hfd : firstData b.captured = some (.obj pkvs))
    (hemp : b.captured.isEmpty = false)
    (hdl : lookupJ pkvs (.str "document") = some (.obj dkvs))
    (hcl : lookupJ dkvs (.str "classificatiecollectie") = some (.obj ckvs))
    (hcats : lookupJ ckvs (.str "informatiecategorieen") = some (.arr cats))
    (hsafe : docExtrasSafe dkvs = true) :
    ∃ md, extract_formatted_metadata b = .ok md
      ∧ lookupJ md (.str "woo_informatiecategorie")
          = some (.str (joinWith ", " (labelStrings cats)))
      ∧ lookupJ md (.str "informatiecategorieen")
          = some (.arr ((labelStrings cats).map Json.str)) := by
  have htr : truthy (.obj pkvs) = true := by
    simp [truthy, List.isEmpty_eq_true, lookupJ_some_ne_nil hdl]
  unfold BundleOK at hb
  rw [hfd] at hb
  obtain ⟨hdocp, hvers, hpli⟩ := payloadOK_obj hb htr
  unfold documentPred at hdocp
  rw [hdl] at hdocp
  obtain ⟨h1, h2, h3, h4, h5, h6, h7, h8, h9⟩ := docOK_parts hdocp
  have hck : classOK (.obj ckvs) = true := by
    unfold optIs at h8
    rw [hcl] at h8
    simpa using h8
  obtain ⟨m1, e1⟩ := basicSection_ok b dkvs h1
  obtain ⟨m2, e2⟩ := datesSection_ok m1 dkvs h2
  obtain ⟨m3, e3⟩ := orgsSection_ok m2 dkvs h3 h4 h5 h6 h7
  obtain ⟨m4, e4, v1, v2⟩ := classSection_values m3 dkvs ckvs cats hcl hck hcats
  obtain ⟨m5, e5⟩ := extrasSection_ok m4 dkvs h9
  obtain ⟨q1, q2⟩ := extrasSection_pres m4 m5 dkvs e5 hsafe
  obtain ⟨m6, e6⟩ := fileSection_ok m5 pkvs hvers
  obtain ⟨r1, r2⟩ := fileSection_pres m5 m6 _ e6
  obtain ⟨m7, e7⟩ := plooiSection_ok m6 pkvs dkvs hpli
  obtain ⟨s1, s2⟩ := plooiSection_pres m6 m7 _ _ e7
  refine ⟨m7, ?_, ?_, ?_⟩
  · unfold extract_formatted_metadata
    rw [hemp, if_bool_false, hfd]
    show extractPayload b (.obj pkvs) = _
    unfold extractPayload
    rw [htr, Bool.not_true, if_bool_false]
    have hany : (pkvs.any (fun q => keyEq q.1 (.str "document"))) = true := by
      rw [any_keyEq_eq_isSome, hdl]
      rfl
    simp only [jhas, hany, jindexS, hdl]
    unfold extractDoc
    rw [e1, ok_bind, e2, ok_bind, e3, ok_bind, e4, ok_bind, e5, ok_bind,
      e6, ok_bind, e7]
  · rw [s1, r1, q1, v1]
  · rw [s2, r2, q2, v2]

/-! ### Frontier lemmas -/

theorem knownUrl_append (s : Frontier) (e : UrlDoc) (u : String) :
    knownUrl (s ++ [e]) u = (knownUrl s u || (e.url == u)) := by
  simp [knownUrl, List.any_append]

theorem store_preserves_mem (urls : List String) : ∀ (now : Nat) (s : Frontier)
    (e : UrlDoc), e ∈ s → e ∈ (store_urls_in_mongodb urls now s).2 := by
  induction urls with
  | nil =>
      intro now s e he
      exact he
  | cons u rest ih =>
      intro now s e he
      unfold store_urls_in_mongodb
      cases hk : knownUrl s u with
      | true =>
          rw [if_bool_true]
          exact ih now s e he
      | false =>
          rw [if_bool_false]
          show e ∈ (store_urls_in_mongodb rest now (s ++ [newDoc u now])).2
          exact ih now _ e (by simp [he])

theorem knownUrl_store_mono (urls : List String) (now : Nat) (s : Frontier)
    (u : String) (h : knownUrl s u = true) :
    knownUrl (store_urls_in_mongodb urls now s).2 u = true := by
  unfold knownUrl at h ⊢
  simp only [List.any_eq_true] at h ⊢
  obtain ⟨e, he, hu⟩ := h
  exact ⟨e, store_preserves_mem urls now s e he, hu⟩

theorem knownUrl_store_elem (urls : List String) : ∀ (now : Nat) (s : Frontier)
    (u : String), u ∈ urls →
    knownUrl (store_urls_in_mongodb urls now s).2 u = true := by
  induction urls with
  | nil =>
      intro now s u h
      cases h
  | cons v rest ih =>
      intro now s u hu
      unfold store_urls_in_mongodb
      rcases List.mem_cons.mp hu with rfl | hmem
      · cases hk : knownUrl s u with
        | true =>
            rw [if_bool_true]
            exact knownUrl_store_mono rest now s u hk
        | false =>
            rw [if_bool_false]
            show knownUrl (store_urls_in_mongodb rest now (s ++ [newDoc u now])).2 u = true
            apply knownUrl_store_mono
            rw [knownUrl_append]
            simp [newDoc]
      · cases hk : knownUrl s v with
        | true =>
            rw [if_bool_true]
            exact ih now s u hmem
        | false =>
            rw [if_bool_false]
            show knownUrl (store_urls_in_mongodb rest now (s ++ [newDoc v now])).2 u = true
            exact ih now _ u hmem

theorem store_noop (urls : List String) : ∀ (now : Nat) (s : Frontier),
    (∀ u ∈ urls, knownUrl s u = true) →
    store_urls_in_mongodb urls now s = (0, s) := by
  induction urls with
  | nil =>
      intro _ _ _
      rfl
  | cons u rest ih =>
      intro now s hall
      unfold store_urls_in_mongodb
      rw [hall u (by simp), if_bool_true]
      exact ih now s (fun v hv => hall v (by simp [hv]))

theorem store_count (urls : List String) : ∀ (now : Nat) (s : Frontier),
    urls.Nodup →
    (store_urls_in_mongodb urls now s).1
      = (urls.filter (fun u => !knownUrl s u)).length := by
  induction urls with
  | nil =>
      intro _ _ _
      rfl
  | cons u rest ih =>
      intro now s hnd
      rw [List.nodup_cons] at hnd
      obtain ⟨hnotin, hndrest⟩ := hnd
      unfold store_urls_in_mongodb
      cases hk : knownUrl s u with
      | true =>
          rw [if_bool_true, List.filter_cons, hk, Bool.not_true, if_bool_false]
          exact ih now s hndrest
      | false =>
          rw [if_bool_false, List.filter_cons, hk, Bool.not_false, if_bool_true]
          show (store_urls_in_mongodb rest now (s ++ [newDoc u now])).1 + 1
            = (u :: rest.filter (fun v => !knownUrl s v)).length
          rw [List.length_cons, ih now (s ++ [newDoc u now]) hndrest]
          congr 2
          apply List.filter_congr
          intro v hv
          have hne : (u == v) = false := by
            have hvu : v ≠ u := fun hvu => hnotin (hvu ▸ hv)
            simp [hvu.symm]
          rw [knownUrl_append]
          simp [newDoc, hne]

theorem updateFirst_not_known (url : String) (f : UrlDoc → UrlDoc) :
    ∀ s : Frontier, knownUrl s url = false → updateFirst url f s = s := by
  intro s
  induction s with
  | nil => intro _; rfl
  | cons e rest ih =>
      intro h
      simp only [knownUrl, List.any_cons, Bool.or_eq_false_iff] at h
      obtain ⟨h1, h2⟩ := h
      unfold updateFirst
      rw [h1, if_bool_false, ih (by simpa [knownUrl] using h2)]

theorem updateFirst_length (url : String) (f : UrlDoc → UrlDoc) :
    ∀ s : Frontier, (updateFirst url f s).length = s.length := by
  intro s
  induction s with
  | nil => rfl
  | cons e rest ih =>
      unfold updateFirst
      cases he : e.url == url with
      | true => simp
      | false => simp [ih]

theorem updateFirst_map_url (url : String) (f : UrlDoc → UrlDoc)
    (hf : ∀ e, (f e).url = e.url) :
    ∀ s : Frontier, (updateFirst url f s).map (fun e => e.url)
      = s.map (fun e => e.url) := by
  intro s
  induction s with
  | nil => rfl
  | cons e rest ih =>
      unfold updateFirst
      cases he : e.url == url with
      | true => simp [hf]
      | false => simp [ih]

theorem updateFirst_mem_updated (url : String) (f : UrlDoc → UrlDoc) :
    ∀ s : Frontier, knownUrl s url = true →
    ∃ e ∈ s, e.url = url ∧ f e ∈ updateFirst url f s := by
  intro s
  induction s with
  | nil => intro h; simp [knownUrl] at h
  | cons e rest ih =>
      intro h
      unfold updateFirst
      cases he : e.url == url with
      | true =>
          refine ⟨e, by simp, by simpa using he, ?_⟩
          simp
      | false =>
          have h' : knownUrl rest url = true := by
            simp only [knownUrl, List.any_cons, he, Bool.false_or] at h
            exact h
          obtain ⟨e', he', hurl, hmem⟩ := ih h'
          exact ⟨e', by simp [he'], hurl, by simp [hmem]⟩

/-! ### Capture, date and pagination support lemmas -/

theorem processCaptured_eq_map (parse : String → Option Json)
    (items : List RawCapture) :
    processCaptured parse items = items.map (convertItem parse) := by
  induction items with
  | nil => rfl
  | cons it rest ih => simp [processCaptured, ih]

theorem parseYMD_hm {s : String} {dt : DT} (hp : parseYMD s = some dt) :
    dt.hour = 0 ∧ dt.minute = 0 := by
  unfold parseYMD at hp
  split at hp
  · split at hp
    · split at hp
      · simp only [Option.some.injEq] at hp
        subst hp
        exact ⟨rfl, rfl⟩
      · simp at hp
    · simp at hp
  · simp at hp

theorem format_date_pass_bare (s : String)
    (hT : containsCh s.toList 'T' = false) (hp : parseYMD s = none) :
    format_date_for_display (.str s) = .str s := by
  unfold format_date_for_display
  cases hse : s.isEmpty with
  | true =>
      have he : s = "" := (String.isEmpty_iff s).mp hse
      subst he
      rfl
  | false =>
      rw [show truthy (.str s) = true from by simp [truthy, hse],
        Bool.not_true, if_bool_false]
      show Json.str (formatDateCore s) = Json.str s
      unfold formatDateCore
      rw [hT, if_bool_false, hp]

theorem format_date_pass_iso_nodot (s : String)
    (hT : containsCh s.toList 'T' = true)
    (hdot : containsCh s.toList '.' = false)
    (hiso : fromisoformat (replaceZ s.toList) = none) :
    format_date_for_display (.str s) = .str s := by
  have hse : s.isEmpty = false := by
    cases hse : s.isEmpty with
    | true =>
        have he : s = "" := (String.isEmpty_iff s).mp hse
        subst he
        simp [containsCh] at hT
    | false => rfl
  unfold format_date_for_display
  rw [show truthy (.str s) = true from by simp [truthy, hse],
    Bool.not_true, if_bool_false]
  show Json.str (formatDateCore s) = Json.str s
  unfold formatDateCore
  rw [hT, if_bool_true, hdot, if_bool_false]
  simp only [hiso]

theorem format_date_truncates_iso_dot (s : String)
    (hT : containsCh s.toList 'T' = true)
    (hdot : containsCh s.toList '.' = true)
    (hiso : fromisoformat
        (replaceZ (String.mk (takeBeforeDot s.toList) ++ "Z").toList) = none) :
    format_date_for_display (.str s)
      = .str (String.mk (takeBeforeDot s.toList) ++ "Z") := by
  have hse : s.isEmpty = false := by
    cases hse : s.isEmpty with
    | true =>
        have he : s = "" := (String.isEmpty_iff s).mp hse
        subst he
        simp [containsCh] at hT
    | false => rfl
  unfold format_date_for_display
  rw [show truthy (.str s) = true from by simp [truthy, hse],
    Bool.not_true, if_bool_false]
  show Json.str (formatDateCore s) = Json.str (String.mk (takeBeforeDot s.toList) ++ "Z")
  unfold formatDateCore
  rw [hT, if_bool_true, hdot, if_bool_true]
  simp only [hiso]

theorem discoverVisits_stops (oracle : PageOracle) (N : Nat)
    (hN : collect_search_links (oracle N).1 (oracle N).2.1 (oracle N).2.2 = .ok [])
    (hbefore : ∀ k, 1 ≤ k → k < N → ∃ x xs,
      collect_search_links (oracle k).1 (oracle k).2.1 (oracle k).2.2
        = .ok (x :: xs)) :
    ∀ (fuel start : Nat), 1 ≤ start → start ≤ N → N < start + fuel →
    discoverVisits oracle fuel start = List.range' start (N - start + 1) := by
  intro fuel
  induction fuel with
  | zero =>
      intro start _ h2 h3
      omega
  | succ f ih =>
      intro start h1 h2 h3
      unfold discoverVisits
      by_cases hs : start = N
      · subst hs
        rw [hN, show start - start + 1 = 1 from by omega]
        rfl
      · have hlt : start < N := by omega
        obtain ⟨x, xs, hx⟩ := hbefore start h1 hlt
        rw [hx, ih (start + 1) (by omega) (by omega) (by omega),
          show N - start + 1 = (N - (start + 1) + 1) + 1 from by omega]
        rfl

/-! ## Claim theorems -/

/-- Claim C1, counterexample: the payload `7` is syntactically valid JSON,
yet `extract_formatted_metadata` raises — `'document' not in 7` is a
Python `TypeError` — so extraction is not total on all valid JSON. -/
theorem c1_counterexample :
    extract_formatted_metadata numBundle = .error "TypeError" := rfl

/-- Claim C1, amended: on every capture bundle whose selected payload
conforms to the expected schema shape (`BundleOK`: each expected field is
optional but, when present, carries its expected type, and extra-metadata
keys are strings other than the reserved output key
`extra_metadata_fields`), the extractor never raises and returns a
(possibly empty) mapping; in particular every nested field may be absent,
the payload may be the empty object, and all fields may be populated. -/
theorem c1_extract_total (b : Bundle) (h : BundleOK b = true) :
    ∃ md, extract_formatted_metadata b = .ok md :=
  extract_total b h

/-- Witness for C1 at a fully populated, schema-conforming bundle. -/
theorem c1_witness :
    BundleOK sampleBundle = true
    ∧ ∃ md, extract_formatted_metadata sampleBundle = .ok md :=
  ⟨by decide, c1_extract_total sampleBundle (by decide)⟩

/-- Claim C2: inserting a duplicate-free URL list a second time is a
no-op returning 0; the first insertion's return value counts exactly the
URLs not previously known; and every pre-existing document survives with
all its fields intact (re-discovery never resets state). -/
theorem c2_store_idempotent (urls : List String) (now now2 : Nat)
    (s : Frontier) (hnd : urls.Nodup) :
    store_urls_in_mongodb urls now2 (store_urls_in_mongodb urls now s).2
        = (0, (store_urls_in_mongodb urls now s).2)
    ∧ (store_urls_in_mongodb urls now s).1
        = (urls.filter (fun u => !knownUrl s u)).length
    ∧ (∀ e ∈ s, e ∈ (store_urls_in_mongodb urls now s).2) := by
  refine ⟨?_, store_count urls now s hnd,
    fun e he => store_preserves_mem urls now s e he⟩
  exact store_noop urls now2 _ (fun u hu => knownUrl_store_elem urls now s u hu)

/-- Witness for C2: the specification's §8 scenario with two fresh URLs. -/
theorem c2_witness :
    ["https://x/details/1", "https://x/details/2"].Nodup
    ∧ (store_urls_in_mongodb ["https://x/details/1", "https://x/details/2"] 7
          (store_urls_in_mongodb ["https://x/details/1", "https://x/details/2"] 3 []).2
        = (0, (store_urls_in_mongodb
            ["https://x/details/1", "https://x/details/2"] 3 []).2)
      ∧ (store_urls_in_mongodb ["https://x/details/1", "https://x/details/2"] 3 []).1
          = ((["https://x/details/1", "https://x/details/2"]).filter
              (fun u => !knownUrl [] u)).length
      ∧ (∀ e ∈ ([] : Frontier),
          e ∈ (store_urls_in_mongodb
            ["https://x/details/1", "https://x/details/2"] 3 []).2)) :=
  ⟨by decide, c2_store_idempotent _ 3 7 [] (by decide)⟩

/-- Claim C3: every capture entry built by `scrape_url_details` carries
exactly one of `data` (decode succeeded) or `raw_text` (decode failed);
on a successful navigation the bundle keeps one entry per captured body
in order, and a body failing JSON decoding is retained under `raw_text`,
never dropped. -/
theorem c3_capture_exclusive (parse : String → Option Json) (nav : NavResult)
    (items : List RawCapture) (du ts : String) :
    (∀ e ∈ (scrape_url_details parse nav items du ts).captured,
        (e.data.isSome = true ∧ e.raw_text = none)
        ∨ (e.data = none ∧ e.raw_text.isSome = true))
    ∧ (nav = .success →
        (scrape_url_details parse nav items du ts).captured
          = items.map (convertItem parse))
    ∧ (∀ it ∈ items, nav = .success → parse it.json_text = none →
        ∃ e ∈ (scrape_url_details parse nav items du ts).captured,
          e.response_url = it.url ∧ e.status = it.status
          ∧ e.data = none ∧ e.raw_text = some it.json_text) := by
  refine ⟨?_, ?_, ?_⟩
  · intro e he
    cases nav with
    | failure msg => simp [scrape_url_details] at he
    | success =>
        simp only [scrape_url_details, processCaptured_eq_map, List.mem_map] at he
        obtain ⟨it, hit, rfl⟩ := he
        unfold convertItem
        cases hp : parse it.json_text with
        | some j => exact .inl ⟨rfl, rfl⟩
        | none => exact .inr ⟨rfl, rfl⟩
  · intro hnav
    subst hnav
    simp [scrape_url_details, processCaptured_eq_map]
  · intro it hit hnav hp
    subst hnav
    refine ⟨convertItem parse it, ?_, ?_⟩
    · simp only [scrape_url_details, processCaptured_eq_map, List.mem_map]
      exact ⟨it, hit, rfl⟩
    · unfold convertItem
      rw [hp]
      exact ⟨rfl, rfl, rfl, rfl⟩

/-- Witness for C3: a body that is not JSON is kept under `raw_text`. -/
theorem c3_witness :
    ∃ e ∈ (scrape_url_details (fun _ => none) .success
        [⟨"https://api", 200, "body"⟩] "https://x/details/1" "T0").captured,
      e.response_url = "https://api" ∧ e.status = 200
      ∧ e.data = none ∧ e.raw_text = some "body" :=
  (c3_capture_exclusive (fun _ => none) .success [⟨"https://api", 200, "body"⟩]
    "https://x/details/1" "T0").2.2 ⟨"https://api", 200, "body"⟩ (by simp) rfl rfl

/-- Claim C4, counterexample: `"no.T-a-date"` parses under neither date
form, yet `format_date_for_display` returns `"noZ"` — the truncated,
`'Z'`-suffixed rebinding — not the input unchanged. -/
theorem c4_counterexample :
    format_date_for_display (.str "no.T-a-date") = .str "noZ"
    ∧ "noZ" ≠ "no.T-a-date"
    ∧ parseYMD "no.T-a-date" = none
    ∧ fromisoformat (replaceZ
        (String.mk (takeBeforeDot "no.T-a-date".toList) ++ "Z").toList) = none :=
  ⟨rfl, by decide, rfl, rfl⟩

/-- Claim C4, amended: the full timestamp formats to
`"05-03-2024, 14:30"`, a bare-hour timestamp and one with a
seconds-bearing offset format likewise; an input that parses under
neither the timestamp form (`fromisoformat`, modelled as the grammar
every CPython version accepts) nor the bare calendar-date form is
returned unchanged unless it contains both `'T'` and `'.'`, in which
case the portion before the first `'.'` with `'Z'` appended is
returned; the function never raises. -/
theorem c4_date_formatting :
    format_date_for_display (.str "2024-03-05T14:30:00.123456Z")
      = .str "05-03-2024, 14:30"
    ∧ format_date_for_display (.str "2024-03-05T14") = .str "05-03-2024, 14:00"
    ∧ format_date_for_display (.str "2024-03-05T14:30+01:02:03")
      = .str "05-03-2024, 14:30"
    ∧ (∀ s : String, containsCh s.toList 'T' = false → parseYMD s = none →
        format_date_for_display (.str s) = .str s)
    ∧ (∀ s : String, containsCh s.toList 'T' = true →
        containsCh s.toList '.' = false →
        fromisoformat (replaceZ s.toList) = none →
        format_date_for_display (.str s) = .str s)
    ∧ (∀ s : String, containsCh s.toList 'T' = true →
        containsCh s.toList '.' = true →
        fromisoformat (replaceZ
          (String.mk (takeBeforeDot s.toList) ++ "Z").toList) = none →
        format_date_for_display (.str s)
          = .str (String.mk (takeBeforeDot s.toList) ++ "Z")) :=
  ⟨rfl, rfl, rfl, format_date_pass_bare, format_date_pass_iso_nodot,
    format_date_truncates_iso_dot⟩

/-- Witness for C4: `"not-a-date"` passes through unchanged. -/
theorem c4_witness :
    containsCh "not-a-date".toList 'T' = false
    ∧ parseYMD "not-a-date" = none
    ∧ format_date_for_display (.str "not-a-date") = .str "not-a-date" :=
  ⟨rfl, rfl, c4_date_formatting.2.2.2.1 "not-a-date" rfl rfl⟩

/-- Claim C5, counterexample: updating a URL absent from the frontier is
a silent success — `update_one` without upsert matches nothing, the
method returns normally (`.ok`) and the collection is unchanged — not a
NotFound failure. -/
theorem c5_counterexample :
    update_url_with_scraped_data false "https://x/details/9" emptyBundle [] 5 []
      = .ok [] := rfl

/-- Claim C5, amended: `update_url_with_scraped_data` on an unknown URL
returns normally leaving the collection unchanged (silent no-op, no
NotFound error, no entry created); on a known URL it marks the first
matching document processed, setting `processed_at`, `raw_scraped_data`
and `formatted_metadata`, without creating or removing any entry — also
when the entry was already processed. -/
theorem c5_mark_processed (url : String) (raw : Bundle) (fm : MD) (now : Nat)
    (s s' : Frontier)
    (h : update_url_with_scraped_data false url raw fm now s = .ok s') :
    (knownUrl s url = false → s' = s)
    ∧ s'.length = s.length
    ∧ s'.map (fun e => e.url) = s.map (fun e => e.url)
    ∧ (knownUrl s url = true →
        ∃ e ∈ s, e.url = url ∧ markProcessed raw fm now e ∈ s') := by
  unfold update_url_with_scraped_data at h
  rw [if_bool_false] at h
  simp only [Except.ok.injEq] at h
  subst h
  refine ⟨?_, updateFirst_length url _ s,
    updateFirst_map_url url (markProcessed raw fm now) (fun e => rfl) s, ?_⟩
  · intro hk
    exact updateFirst_not_known url _ s hk
  · intro hk
    exact updateFirst_mem_updated url _ s hk

/-- Witness for C5 on a one-document frontier. -/
theorem c5_witness :
    ∃ e ∈ [newDoc "https://x/details/1" 0], e.url = "https://x/details/1"
      ∧ markProcessed emptyBundle [] 5 e
          ∈ updateFirst "https://x/details/1" (markProcessed emptyBundle [] 5)
              [newDoc "https://x/details/1" 0] :=
  ((c5_mark_processed "https://x/details/1" emptyBundle [] 5
      [newDoc "https://x/details/1" 0] _ rfl).2.2.2) rfl

/-- Claim C6, counterexample: a storage failure during
`update_url_with_scraped_data` (the pymongo call raising) is caught by
the bare `except` and the caller observes a normal return with the store
untouched — the error is swallowed, not reported. -/
theorem c6_counterexample :
    update_url_with_scraped_data true "https://x/details/1" emptyBundle [] 5
      [newDoc "https://x/details/1" 0] = .ok [newDoc "https://x/details/1" 0] := rfl

/-- Claim C6, amended: storage failures are swallowed, not reported: a
failing update returns normally with the collection unchanged, and a
failing `get_unprocessed_urls` returns `[]`, indistinguishable from an
empty frontier.  Because a failed update leaves the entry unprocessed, it
is still returned by a later successful `get_unprocessed_urls`. -/
theorem c6_errors_swallowed (url : String) (raw : Bundle) (fm : MD) (now : Nat)
    (s : Frontier) (limit : Option Nat) :
    update_url_with_scraped_data true url raw fm now s = .ok s
    ∧ get_unprocessed_urls true limit s = []
    ∧ (∀ e ∈ s, e.processed = false → e ∈ get_unprocessed_urls false none s) := by
  refine ⟨rfl, rfl, fun e he hp => ?_⟩
  show e ∈ s.filter (fun e => !e.processed)
  rw [List.mem_filter]
  exact ⟨he, by simp [hp]⟩

/-- Witness for C6: the unprocessed document survives for a later batch. -/
theorem c6_witness :
    (newDoc "https://x/details/1" 0).processed = false
    ∧ newDoc "https://x/details/1" 0
        ∈ get_unprocessed_urls false none [newDoc "https://x/details/1" 0] :=
  ⟨rfl, (c6_errors_swallowed "https://x/details/2" emptyBundle [] 5
      [newDoc "https://x/details/1" 0] none).2.2
    (newDoc "https://x/details/1" 0) (by simp) rfl⟩

/-- Claim C7, counterexample: a timeout during the navigation itself
(`page.goto` raising `PWTimeout`) is caught by the same
`except PWTimeout` and returns `[]` — silently treated as "no links" even
though the page carried a detail link — rather than surfacing an error. -/
theorem c7_counterexample :
    collect_search_links .timeout .found [some "/details/abc"] = .ok [] := rfl

/-- Claim C7, amended: `collect_search_links` returns `[]` when the
element wait times out on a loaded page and also when the navigation
itself times out; a non-timeout navigation failure propagates as an
error; on success it returns the joined, deduplicated detail links; and
the empty result is what terminates pagination: if pages `1..N-1` yield
links and page `N` yields `[]`, the discover loop visits exactly pages
`1..N`. -/
theorem c7_links_termination (wait : WaitResult) (hrefs : List (Option String))
    (msg : String) (oracle : PageOracle) (N : Nat)
    (hN : collect_search_links (oracle N).1 (oracle N).2.1 (oracle N).2.2 = .ok [])
    (hbefore : ∀ k, 1 ≤ k → k < N → ∃ x xs,
      collect_search_links (oracle k).1 (oracle k).2.1 (oracle k).2.2
        = .ok (x :: xs)) :
    collect_search_links .timeout wait hrefs = .ok []
    ∧ collect_search_links .ok .timeout hrefs = .ok []
    ∧ collect_search_links (.failure msg) wait hrefs = .error msg
    ∧ collect_search_links .ok .found hrefs = .ok (processAnchors hrefs)
    ∧ (∀ fuel start, 1 ≤ start → start ≤ N → N < start + fuel →
        discoverVisits oracle fuel start = List.range' start (N - start + 1)) := by
  refine ⟨?_, rfl, rfl, rfl, discoverVisits_stops oracle N hN hbefore⟩
  cases wait <;> rfl

/-- Witness for C7: a constant "selector wait times out" oracle makes the
discover loop visit exactly page 1. -/
theorem c7_witness :
    collect_search_links GotoResult.timeout WaitResult.found [some "/details/abc"]
        = .ok []
    ∧ discoverVisits (fun _ => (GotoResult.ok, WaitResult.timeout, [])) 5 1
        = List.range' 1 (1 - 1 + 1) :=
  ⟨(c7_links_termination .found [some "/details/abc"] "boom"
      (fun _ => (GotoResult.ok, WaitResult.timeout, [])) 1 rfl
      (fun k h1 h2 => absurd (Nat.lt_of_lt_of_le h2 h1) (Nat.lt_irrefl k))).1,
    (c7_links_termination .found [some "/details/abc"] "boom"
      (fun _ => (GotoResult.ok, WaitResult.timeout, [])) 1 rfl
      (fun k h1 h2 => absurd (Nat.lt_of_lt_of_le h2 h1) (Nat.lt_irrefl k))).2.2.2.2
      5 1 (by decide) (by decide) (by decide)⟩

/-- Claim C8, counterexample: a payload whose classification carries only
`themas` label objects flattens to the comma-joined string under
`themas`, but no key of the output holds the labels as a list — the
"both representations" claim fails for `themas`. -/
theorem c8_counterexample :
    themasJoined (extract_formatted_metadata themasBundle) = true
    ∧ noThemasList (extract_formatted_metadata themasBundle) = true :=
  ⟨rfl, rfl⟩

/-- Claim C8, amended: for `informatiecategorieen` both representations
are produced: on a conforming bundle whose document classification holds
`informatiecategorieen`, the output maps `woo_informatiecategorie` to the
comma-joined label string and `informatiecategorieen` to the same labels
as a list, provided no extra-metadata field is keyed by one of these two
output keys.  (`themas`, by contrast, only receives the joined string —
see the counterexample.) -/
theorem c8_infocats_both (b : Bundle) (pkvs dkvs ckvs : List (Json × Json))
    (cats : List Json)
    (hb : BundleOK b = true)
    (hfd : firstData b.captured = some (.obj pkvs))
    (hemp : b.captured.isEmpty = false)
    (hdl : lookupJ pkvs (.str "document") = some (.obj dkvs))
    (hcl : lookupJ dkvs (.str "classificatiecollectie") = some (.obj ckvs))
    (hcats : lookupJ ckvs (.str "informatiecategorieen") = some (.arr cats))
    (hsafe : docExtrasSafe dkvs = true) :
    ∃ md, extract_formatted_metadata b = .ok md
      ∧ lookupJ md (.str "woo_informatiecategorie")
          = some (.str (joinWith ", " (labelStrings cats)))
      ∧ lookupJ md (.str "informatiecategorieen")
          = some (.arr ((labelStrings cats).map Json.str)) :=
  extract_infocats b pkvs dkvs ckvs cats hb hfd hemp hdl hcl hcats hsafe

/-- Witness for C8 at the fully populated sample bundle. -/
theorem c8_witness :
    ∃ md, extract_formatted_metadata sampleBundle = .ok md
      ∧ lookupJ md (.str "woo_informatiecategorie")
          = some (.str (joinWith ", " (labelStrings sampleCats)))
      ∧ lookupJ md (.str "informatiecategorieen")
          = some (.arr ((labelStrings sampleCats).map Json.str)) :=
  c8_infocats_both sampleBundle samplePayloadEntries sampleDocEntries
    sampleClassEntries sampleCats (by decide) rfl rfl rfl rfl rfl (by decide)

/-- Claim C9, counterexample: `limit` is checked for truthiness, so a
given limit of `0` is treated as "no limit" and the call returns one
entry, not at most zero. -/
theorem c9_counterexample :
    get_unprocessed_urls false (some 0) [newDoc "https://x/details/1" 0]
        = [newDoc "https://x/details/1" 0]
    ∧ (get_unprocessed_urls false (some 0)
        [newDoc "https://x/details/1" 0]).length = 1 :=
  ⟨rfl, rfl⟩

/-- Claim C9, amended: `get_unprocessed_urls` returns exactly the
documents with `processed = false`, in insertion order (a sublist of the
collection); with no limit — or the falsy limit `0` — it returns all of
them, and with a positive limit it returns the first `limit` of them, so
at most `limit`. -/
theorem c9_next_batch (s : Frontier) (l : Nat) :
    get_unprocessed_urls false none s = s.filter (fun e => !e.processed)
    ∧ get_unprocessed_urls false (some 0) s = s.filter (fun e => !e.processed)
    ∧ (∀ e ∈ get_unprocessed_urls false none s, e.processed = false)
    ∧ List.Sublist (get_unprocessed_urls false none s) s
    ∧ (0 < l →
        get_unprocessed_urls false (some l) s
            = (s.filter (fun e => !e.processed)).take l
        ∧ (get_unprocessed_urls false (some l) s).length ≤ l
        ∧ List.Sublist (get_unprocessed_urls false (some l) s) s) := by
  have hbne : (l != 0) = true → get_unprocessed_urls false (some l) s
      = (s.filter (fun e => !e.processed)).take l := by
    intro hl
    show (if (l != 0) = true then (s.filter (fun e => !e.processed)).take l
        else s.filter (fun e => !e.processed))
      = (s.filter (fun e => !e.processed)).take l
    rw [hl, if_bool_true]
  refine ⟨rfl, rfl, ?_, List.filter_sublist s, ?_⟩
  · intro e he
    have hm : e ∈ s.filter (fun e => !e.processed) := he
    rw [List.mem_filter] at hm
    simpa using hm.2
  · intro hl
    have hl' : (l != 0) = true := by
      simp only [bne_iff_ne, ne_eq]
      omega
    refine ⟨hbne hl', ?_, ?_⟩
    · rw [hbne hl']
      simp [List.length_take]
    · rw [hbne hl']
      exact (List.take_sublist l _).trans (List.filter_sublist s)

/-- Witness for C9 with a positive limit on a three-document frontier. -/
theorem c9_witness :
    (0 < 2)
    ∧ (get_unprocessed_urls false (some 2)
          [newDoc "https://a" 0, newDoc "https://b" 1, newDoc "https://c" 2]
        = (([newDoc "https://a" 0, newDoc "https://b" 1, newDoc "https://c" 2]).filter
            (fun e => !e.processed)).take 2
      ∧ (get_unprocessed_urls false (some 2)
          [newDoc "https://a" 0, newDoc "https://b" 1, newDoc "https://c" 2]).length ≤ 2
      ∧ List.Sublist (get_unprocessed_urls false (some 2)
          [newDoc "https://a" 0, newDoc "https://b" 1, newDoc "https://c" 2])
          [newDoc "https://a" 0, newDoc "https://b" 1, newDoc "https://c" 2]) :=
  ⟨by decide,
    (c9_next_batch [newDoc "https://a" 0, newDoc "https://b" 1, newDoc "https://c" 2] 2).2.2.2.2
      (by decide)⟩

/-- Claim C10: a string with no `'T'` that `strptime('%Y-%m-%d')` parses
(year rendered without padding as on glibc; the claim's `YYYY` form means
a four-digit year, captured by `1000 ≤ year`) is displayed as
`DD-MM-YYYY` followed by the literal `", 00:00"` midnight time. -/
theorem c10_bare_date_display (s : String) (dt : DT)
    (hT : containsCh s.toList 'T' = false)
    (hp : parseYMD s = some dt)
    (_hy : 1000 ≤ dt.year) :
    format_date_for_display (.str s)
      = .str (pad2 dt.day ++ "-" ++ pad2 dt.month ++ "-" ++ fmtYear dt.year
          ++ ", 00:00") := by
  have hse : s.isEmpty = false := by
    cases hse : s.isEmpty with
    | true =>
        have he : s = "" := (String.isEmpty_iff s).mp hse
        subst he
        rw [show parseYMD "" = none from rfl] at hp
        cases hp
    | false => rfl
  obtain ⟨hh, hm⟩ := parseYMD_hm hp
  unfold format_date_for_display
  rw [show truthy (.str s) = true from by simp [truthy, hse],
    Bool.not_true, if_bool_false]
  show Json.str (formatDateCore s) = _
  unfold formatDateCore
  rw [hT, if_bool_false, hp]
  show Json.str (fmtDT dt) = _
  unfold fmtDT
  rw [hh, hm]
  congr 1
  rw [String.append_assoc, String.append_assoc, String.append_assoc]
  congr 1

/-- Witness for C10 at `"2024-03-05"`, which displays as
`"05-03-2024, 00:00"`. -/
theorem c10_witness :
    containsCh "2024-03-05".toList 'T' = false
    ∧ parseYMD "2024-03-05" = some ⟨2024, 3, 5, 0, 0⟩
    ∧ 1000 ≤ (2024 : Nat)
    ∧ format_date_for_display (.str "2024-03-05")
        = .str (pad2 5 ++ "-" ++ pad2 3 ++ "-" ++ fmtYear 2024 ++ ", 00:00")
    ∧ format_date_for_display (.str "2024-03-05") = .str "05-03-2024, 00:00" :=
  ⟨rfl, rfl, by decide,
    c10_bare_date_display "2024-03-05" ⟨2024, 3, 5, 0, 0⟩ rfl rfl (by decide), rfl⟩

end Scrawler
